import Mathlib

/-!
Verification of the `stable` streaming text-table engine (package `stable`,
`style.go`): column-width resolution, cell wrapping/clipping, row assembly,
and the two-phase streaming emission protocol.

Go strings are modelled as lists of Unicode scalar values (`Str := List Char`);
`bytLen` is the UTF-8 byte length (Go `len`), `strW` the terminal display
width computed by the external `go-runewidth` collaborator.  Go `panic` is
modelled as `Option.none`; returned errors as an explicit `GoErr` value.
All widths are `Int`, matching Go `int`.
-/

namespace Stable

/-- A Go string: a sequence of runes (Unicode scalar values). -/
abbrev Str := List Char

/-- Coerce a Lean string literal into the model. -/
def str (s : String) : Str := s.data

/-- `utf8.RuneLen`: the number of bytes of one rune in UTF-8. -/
def rlen (c : Char) : Nat :=
  if c.toNat < 0x80 then 1
  else if c.toNat < 0x800 then 2
  else if c.toNat < 0x10000 then 3
  else 4

/-- Go `len(s)`: the UTF-8 byte length of a string. -/
def bytLen : Str → Nat
  | [] => 0
  | c :: cs => rlen c + bytLen cs

/-- Modelled from the external collaborator `github.com/mattn/go-runewidth`
(`RuneWidth`), which the spec treats as the display-width oracle: wide
East-Asian runes occupy 2 terminal cells, combining marks and controls 0,
everything else 1.  The table keeps the ranges relevant to the repository's
documented use (Latin/CJK). -/
def zeroWidthRanges : List (Nat × Nat) :=
  [(0, 0), (1, 31), (0x7f, 0x9f), (0x300, 0x36f)]

def doubleWidthRanges : List (Nat × Nat) :=
  [(0x1100, 0x115f), (0x2e80, 0xa4cf), (0xac00, 0xd7a3), (0xf900, 0xfaff),
   (0xfe30, 0xfe4f), (0xff00, 0xff60), (0xffe0, 0xffe6), (0x20000, 0x3fffd)]

def inRanges (rs : List (Nat × Nat)) (n : Nat) : Bool :=
  rs.any fun p => decide (p.1 ≤ n ∧ n ≤ p.2)

def runeW (c : Char) : Nat :=
  if inRanges zeroWidthRanges c.toNat then 0
  else if inRanges doubleWidthRanges c.toNat then 2
  else 1

/-- `go-runewidth` `StringWidth`: display width of a string. -/
def strW : Str → Nat
  | [] => 0
  | c :: cs => runeW c + strW cs

/-- `strings.Repeat` for a glyph string. -/
def repChars (s : Str) (n : Nat) : Str :=
  match n with
  | 0 => []
  | n + 1 => s ++ repChars s n

/-- `strings.Join(parts, sep)`. -/
def joinSep (sep : Str) : List Str → Str
  | [] => []
  | [p] => p
  | p :: ps => p ++ sep ++ joinSep sep ps

/-- `strings.Repeat(" ", n)`. -/
def spaces (n : Nat) : Str := List.replicate n ' '

-- --------------------------------------------------------------------------
-- Style descriptors (fields as used by the current engine: Begin/Hline/Sep/End)

structure LineStyle where
  Begin : Str := []
  Hline : Str := []
  Sep : Str := []
  End : Str := []
deriving DecidableEq, Repr

/-- `LineStyle.Visible`: a line is drawn iff any glyph is non-empty. -/
def LineStyle.Visible (s : LineStyle) : Bool :=
  if s.Begin ≠ [] ∨ s.Hline ≠ [] ∨ s.Sep ≠ [] ∨ s.End ≠ [] then true else false

structure RowStyle where
  Begin : Str := []
  Sep : Str := []
  End : Str := []
deriving DecidableEq, Repr

structure TableStyle where
  Name : Str := []
  LineTop : LineStyle := {}
  LineBelowHeader : LineStyle := {}
  LineBetweenRows : LineStyle := {}
  LineBottom : LineStyle := {}
  HeaderRow : RowStyle := {}
  DataRow : RowStyle := {}
  Padding : Str := []
deriving DecidableEq, Repr

def StylePlain : TableStyle :=
  { Name := str "plain"
    HeaderRow := ⟨[], str "   ", []⟩
    DataRow := ⟨[], str "   ", []⟩
    Padding := [] }

def StyleSimple : TableStyle :=
  { Name := str "simple"
    LineTop := ⟨[], str "-", str "-", []⟩
    LineBelowHeader := ⟨[], str "-", str "-", []⟩
    LineBottom := ⟨[], str "-", str "-", []⟩
    HeaderRow := ⟨[], str " ", []⟩
    DataRow := ⟨[], str " ", []⟩
    Padding := str " " }

def StyleGrid : TableStyle :=
  { Name := str "grid"
    LineTop := ⟨str "+", str "-", str "+", str "+"⟩
    LineBelowHeader := ⟨str "+", str "=", str "+", str "+"⟩
    LineBetweenRows := ⟨str "+", str "-", str "+", str "+"⟩
    LineBottom := ⟨str "+", str "-", str "+", str "+"⟩
    HeaderRow := ⟨str "|", str "|", str "|"⟩
    DataRow := ⟨str "|", str "|", str "|"⟩
    Padding := str " " }

-- --------------------------------------------------------------------------
-- Alignment (Go `Align` is an int; 0 means unset)

def AlignLeft : Int := 1
def AlignCenter : Int := 2
def AlignRight : Int := 3

/-- Column configuration. -/
structure Column where
  Header : Str := []
  Align : Int := 0
  MinWidth : Int := 0
  MaxWidth : Int := 0
  HumanizeNumbers : Bool := false
deriving DecidableEq, Repr

/-- A column with the zero-value configuration. -/
def emptyColumn : Column := {}

/-- The table errors surfaced by the engine. -/
inductive GoErr where
  | invalidAlign
  | setHeaderAfterDataAdded
  | unmatchedColumnNumber
  | addRowAfterFlush
  | writerRepeatedlySet
  | noDataAdded
deriving DecidableEq, Repr

/-- The `Table` struct.  Cell values are modelled pre-stringified (the spec
treats value-to-text conversion as an external collaborator; `convertToString`
on a string argument is the identity, so `AddRowStringSlice` input is kept
verbatim).  `columns = none` models a nil Go slice, which `checkRow`
distinguishes from an empty one.  Scratch buffers (`slice`, `rotate`,
`wrappedRow`, `poolSlice`, `buf`) carry no observable state across calls and
are not modelled; the writer itself is replaced by the byte strings each call
hands to it. -/
structure GoTable where
  rows : List (List Str) := []
  columns : Option (List Column) := none
  nColumns : Nat := 0
  dataAdded : Bool := false
  hasHeader : Bool := false
  minWidths : List Int := []
  maxWidths : List Int := []
  widthsChecked : Bool := false
  align : Int := 0
  minWidth : Int := 0
  maxWidth : Int := 0
  wrapDelimiter : Char := Char.ofNat 0
  clipCell : Bool := false
  clipMark : Str := []
  humanizeNumbers : Bool := false
  style : Option TableStyle := some StylePlain
  hasWriter : Bool := false
  bufRows : Nat := 0
  bufRowsDumped : Bool := false
  flushed : Bool := false
deriving DecidableEq, Repr

/-- `New()`. -/
def New : GoTable := {}

/-- the list of columns (empty when nil), as Go range-loops see it. -/
def GoTable.cols (t : GoTable) : List Column := t.columns.getD []

def GoTable.Style (t : GoTable) (s : TableStyle) : GoTable := { t with style := some s }

def GoTable.AlignLeftSet (t : GoTable) : GoTable := { t with align := AlignLeft }

def GoTable.AlignCenterSet (t : GoTable) : GoTable := { t with align := AlignCenter }

def GoTable.AlignRightSet (t : GoTable) : GoTable := { t with align := AlignRight }

/-- `MinWidth`: sets the global minimum cell width, clamped by `maxWidth`. -/
def GoTable.MinWidth (t : GoTable) (w : Int) : GoTable :=
  if t.maxWidth > 0 ∧ w > t.maxWidth then { t with minWidth := t.maxWidth }
  else { t with minWidth := w }

/-- `MaxWidth`: sets the global maximum cell width, clamped by `minWidth`. -/
def GoTable.MaxWidth (t : GoTable) (w : Int) : GoTable :=
  if t.minWidth > 0 ∧ w < t.minWidth then { t with maxWidth := t.minWidth }
  else { t with maxWidth := w }

/-- `WrapDelimiter`: ignored once streaming has begun and data was added. -/
def GoTable.WrapDelimiter (t : GoTable) (d : Char) : GoTable :=
  if t.hasWriter ∧ t.dataAdded then t else { t with wrapDelimiter := d }

/-- `ClipCell(mark)`: switch to clip mode with the given mark. -/
def GoTable.ClipCell (t : GoTable) (mark : Str) : GoTable :=
  { t with clipCell := true, clipMark := mark }

def GoTable.HumanizeNumbers (t : GoTable) : GoTable := { t with humanizeNumbers := true }

/-- `Header(headers)`: returns the (possibly updated) table plus an error. -/
def GoTable.Header (t : GoTable) (headers : List Str) : GoTable × Option GoErr :=
  if t.dataAdded then (t, some .setHeaderAfterDataAdded)
  else ({ t with columns := some (headers.map fun h => { Header := h }),
                 nColumns := headers.length, hasHeader := true }, none)

/-- `HeaderWithFormat(headers)`. -/
def GoTable.HeaderWithFormat (t : GoTable) (headers : List Column) : GoTable × Option GoErr :=
  if t.dataAdded then (t, some .setHeaderAfterDataAdded)
  else ({ t with columns := some headers, nColumns := headers.length, hasHeader := true }, none)

/-- `Writer(w, bufRows)`: attach a sink; `bufRows` is clamped to at least 1
and the row buffer is re-initialised empty. -/
def GoTable.Writer (t : GoTable) (bufRows : Nat) : GoTable × Option GoErr :=
  if t.hasWriter then (t, some .writerRepeatedlySet)
  else ({ t with hasWriter := true, bufRows := max bufRows 1, rows := [] }, none)

/-- `checkRow`: validates the column count (fixing `nColumns` from the first
row when no header and no columns exist) and returns the stringified row.
With pre-stringified cells `parseRow` is the identity. -/
def GoTable.checkRow (t : GoTable) (row : List Str) : GoTable × Except GoErr (List Str) :=
  if t.hasHeader then
    if row.length ≠ t.nColumns then (t, .error .unmatchedColumnNumber)
    else (t, .ok row)
  else
    match t.columns with
    | none =>
      ({ t with columns := some (List.replicate row.length emptyColumn),
                nColumns := row.length }, .ok row)
    | some _ =>
      if row.length ≠ t.nColumns then (t, .error .unmatchedColumnNumber)
      else (t, .ok row)

-- --------------------------------------------------------------------------
-- checkWidths: width resolution

/-- Go `math.MaxInt` on a 64-bit target. -/
def maxInt : Int := 2 ^ 63 - 1

/-- One pass of `l > t.maxWidths[i]` updates over a row (pairwise). -/
def updMax : List Int → List Str → List Int
  | ws, [] => ws
  | [], _ => []
  | w :: ws, v :: vs => (if (bytLen v : Int) > w then (bytLen v : Int) else w) :: updMax ws vs

/-- One pass of `l < t.minWidths[i]` updates over a row (pairwise). -/
def updMin : List Int → List Str → List Int
  | ws, [] => ws
  | [], _ => []
  | w :: ws, v :: vs => (if (bytLen v : Int) < w then (bytLen v : Int) else w) :: updMin ws vs

/-- The user-constraint pass of `checkWidths` over one column: clamp the
maximum down by the column then the global `MaxWidth`, floor it at 5, then
raise the minimum by the column `MinWidth` and override it with the global
`minWidth` when that is positive. -/
def applyCons (tMin tMax : Int) : List Column → List Int → List Int → List Int × List Int
  | [], ms, xs => (ms, xs)
  | _, ms, [] => (ms, [])
  | _, [], xs => ([], xs)
  | c :: cs, m :: ms, x :: xs =>
    let x1 := if c.MaxWidth > 0 ∧ c.MaxWidth < x then c.MaxWidth else x
    let x2 := if tMax > 0 ∧ tMax < x1 then tMax else x1
    let x3 := if x2 < 5 then 5 else x2
    let m1 := if c.MinWidth > 0 ∧ c.MinWidth > m then c.MinWidth else m
    let m2 := if tMin > 0 then tMin else m1
    let r := applyCons tMin tMax cs ms xs
    (m2 :: r.1, x3 :: r.2)

/-- `checkWidths`: fold the header and every buffered row's byte lengths into
per-column extremes, then apply the user constraints. -/
def GoTable.checkWidths (t : GoTable) : GoTable :=
  let mins0 : List Int := List.replicate t.nColumns maxInt
  let maxs0 : List Int := List.replicate t.nColumns 0
  let headers := t.cols.map (·.Header)
  let mins1 := if t.hasHeader then updMin mins0 headers else mins0
  let maxs1 := if t.hasHeader then updMax maxs0 headers else maxs0
  let mins2 := t.rows.foldl updMin mins1
  let maxs2 := t.rows.foldl updMax maxs1
  let p := applyCons t.minWidth t.maxWidth t.cols mins2 maxs2
  { t with minWidths := p.1, maxWidths := p.2, widthsChecked := true }

-- --------------------------------------------------------------------------
-- Wrapping and clipping (formatRow)

/-- The prefix kept by `runewidth.Truncate`: runes while the accumulated
display width stays within `w`. -/
def truncPrefix (w : Int) (acc : Int) : Str → Str
  | [] => []
  | c :: cs =>
    if acc + (runeW c : Int) > w then []
    else c :: truncPrefix w (acc + (runeW c : Int)) cs

/-- `runewidth.Truncate(s, w, tail)` (external collaborator): return `s`
unchanged when it already fits, else the widest prefix leaving room for the
tail, with the tail appended. -/
def truncate (s : Str) (w : Int) (tail : Str) : Str :=
  if (strW s : Int) ≤ w then s
  else truncPrefix (w - strW tail) 0 s ++ tail

/-- The wrap-loop state: the working line, the position (in runes) and rune
size of the last wrap delimiter, the position of the previous safe boundary,
and the emitted lines. -/
structure WrapSt where
  wl : Str := []
  spPos : Nat := 0
  spSize : Nat := 0
  lpPos : Nat := 0
  lpSize : Nat := 0
  acc : List Str := []
deriving DecidableEq, Repr

/-- The cut point once the working line reaches the width: at the last
delimiter when one was seen, else at the previous rune boundary when strictly
over, else the whole line. -/
def wrapCut (wl1 : Str) (sp1 : Nat × Nat) (lp : Nat) (maxWidth : Int) : Str × Str :=
  if sp1.2 > 0 then (wl1.take sp1.1, wl1.drop sp1.1)
  else if (bytLen wl1 : Int) > maxWidth then (wl1.take lp, wl1.drop lp)
  else (wl1, [])

/-- One iteration of the greedy byte-width wrap loop of `formatRow`
(modified from donatj/wordwrap): append the rune; remember delimiter
positions; once the byte length reaches `maxWidth`, cut at the last
delimiter, else at the previous rune boundary, else take the whole line;
`none` models the `attempted to cut character` panic. -/
def wrapStep (delim : Char) (maxWidth : Int) (st : WrapSt) (r : Char) : Option WrapSt :=
  let wl1 := st.wl ++ [r]
  let sp1 : Nat × Nat := if r = delim then (wl1.length, rlen r) else (st.spPos, st.spSize)
  if (bytLen wl1 : Int) ≥ maxWidth then
    let cut := wrapCut wl1 sp1 st.lpPos maxWidth
    if (bytLen cut.1 : Int) > maxWidth then none
    else some { wl := cut.2, spPos := 0, spSize := 0,
                lpPos := cut.2.length, lpSize := rlen r, acc := st.acc ++ [cut.1] }
  else
    some { wl := wl1, spPos := sp1.1, spSize := sp1.2,
           lpPos := wl1.length, lpSize := rlen r, acc := st.acc }

/-- Wrap one cell into display lines (the per-cell wrap branch of
`formatRow`); any remaining working line is the final segment. -/
def wrapCell (delim : Char) (maxWidth : Int) (cell : Str) : Option (List Str) :=
  (cell.foldlM (wrapStep delim maxWidth) {}).map fun st =>
    st.acc ++ (if st.wl = [] then [] else [st.wl])

/-- The per-cell body of `formatRow`: the effective width is the column
maximum raised to the global minimum; a cell within that byte width is kept
whole; in clip mode an over-wide mark is first cleared (persistently) and the
cell truncated; otherwise the cell is wrapped.  Returns the display lines and
the (possibly cleared) clip mark. -/
def formatCellLines (clip : Bool) (delim : Char) (minW : Int) (mark : Str)
    (cell : Str) (colMax : Int) : Option (List Str × Str) :=
  let maxWidth := if colMax < minW then minW else colMax
  if (bytLen cell : Int) ≤ maxWidth then some ([cell], mark)
  else if clip then
    let mark1 := if (bytLen mark : Int) > maxWidth then [] else mark
    some ([truncate cell maxWidth mark1], mark1)
  else
    (wrapCell delim maxWidth cell).map fun ls => (ls, mark)

/-- The cell loop of `formatRow` over (cell, column max width) pairs,
threading the clip mark. -/
def goCells (clip : Bool) (delim : Char) (minW : Int) :
    Str → List (Str × Int) → Option (List (List Str) × Str)
  | mark, [] => some ([], mark)
  | mark, (cell, colMax) :: rest =>
    match formatCellLines clip delim minW mark cell colMax with
    | none => none
    | some (ls, mark1) =>
      (goCells clip delim minW mark1 rest).map fun p => (ls :: p.1, p.2)

/-- `formatRow`: defaults the wrap delimiter to a space, skips rows where no
cell exceeds its column byte width, and otherwise wraps/clips every cell and
rotates the per-cell line lists into printed rows (short cells padded with
empty lines).  Returns the updated table (delimiter default, clip mark),
whether any cell was wrapped, and the rotated rows. -/
def GoTable.formatRow (t0 : GoTable) (row : List Str) :
    Option (GoTable × Bool × List (List Str)) :=
  let t := if t0.wrapDelimiter = Char.ofNat 0 then { t0 with wrapDelimiter := ' ' } else t0
  let needWrap := (List.zip row t.maxWidths).any fun p => (bytLen p.1 : Int) > p.2
  if needWrap = false then some (t, false, [])
  else
    match goCells t.clipCell t.wrapDelimiter t.minWidth t.clipMark (List.zip row t.maxWidths) with
    | none => none
    | some (rot, mark1) =>
      let maxRow := rot.foldl (fun a ls => Nat.max a ls.length) 0
      let wr := (List.range maxRow).map fun j => rot.map fun ls => ls.getD j []
      some ({ t with clipMark := mark1 }, true, wr)

/-- `formatCell`: pad a display line to the column width under the effective
alignment; `none` models the explicit panic when the text is wider than the
column. -/
def formatCell (galign : Int) (text : Str) (width : Int) (align : Int) : Option Str :=
  let a := if galign > 0 then galign else align
  let lenText := strW text
  if width - (lenText : Int) < 0 then none
  else
    let fill := (width - (lenText : Int)).toNat
    if a = AlignCenter then
      let n := fill / 2
      some (spaces n ++ text ++ spaces (fill - n))
    else if a = AlignLeft then some (text ++ spaces fill)
    else if a = AlignRight then some (spaces fill ++ text)
    else some (text ++ spaces fill)

-- --------------------------------------------------------------------------
-- Row and line assembly

/-- A horizontal rule: per column the fill glyph repeated to the effective
width (`max` of the column's resolved max and min) plus both paddings. -/
def lineBlock (ls : LineStyle) (pad2 : Nat) (mins maxs : List Int) : Str :=
  ls.Begin ++
    joinSep ls.Sep ((List.zip maxs mins).map fun p =>
      repChars ls.Hline ((if p.1 < p.2 then p.2 else p.1) + (pad2 : Int)).toNat) ++
    ls.End ++ [Char.ofNat 10]

/-- The padded, aligned cells of one printed line. -/
def rowCells (pad : Str) (galign : Int) :
    List ((Int × Int) × Column × Str) → Option (List Str)
  | [] => some []
  | ((M, m), c, cell) :: rest =>
    match formatCell galign cell (if M < m then m else M) c.Align with
    | none => none
    | some cellOut =>
      match rowCells pad galign rest with
      | none => none
      | some restOut => some ((pad ++ cellOut ++ pad) :: restOut)

/-- One printed row line: `begin + join(sep, padded cells) + end + newline`. -/
def rowLine (rs : RowStyle) (pad : Str) (galign : Int) (cols : List Column)
    (mins maxs : List Int) (cells : List Str) : Option Str :=
  (rowCells pad galign (List.zip (List.zip maxs mins) (List.zip cols cells))).map
    fun parts => rs.Begin ++ joinSep rs.Sep parts ++ rs.End ++ [Char.ofNat 10]

/-- Emit one logical row: wrap/clip with `formatRow`, then print either the
rotated lines or the single unwrapped line. -/
def writeRow (rs : RowStyle) (pad : Str) (t : GoTable) (row : List Str) :
    Option (GoTable × Str) :=
  match t.formatRow row with
  | none => none
  | some (t1, wrapped, wr) =>
    if wrapped then
      match wr.foldlM (fun acc r2 =>
          (rowLine rs pad t1.align t1.cols t1.minWidths t1.maxWidths r2).map (acc ++ ·)) [] with
      | none => none
      | some lines => some (t1, lines)
    else
      match rowLine rs pad t1.align t1.cols t1.minWidths t1.maxWidths row with
      | none => none
      | some s => some (t1, s)

/-- The data-row loop shared by `Render` and the buffered dump: a between-rows
rule before every row but the first, then the row itself. -/
def rowsLoop (style : TableStyle) (pad2 : Nat) :
    GoTable → Bool → List (List Str) → Option (GoTable × Str)
  | t, _, [] => some (t, [])
  | t, first, r :: rest =>
    let betw := if style.LineBetweenRows.Visible ∧ first = false then
        lineBlock style.LineBetweenRows pad2 t.minWidths t.maxWidths
      else []
    match writeRow style.DataRow style.Padding t r with
    | none => none
    | some (t1, s) =>
      match rowsLoop style pad2 t1 false rest with
      | none => none
      | some (t2, s2) => some (t2, betw ++ s ++ s2)

/-- The header block: the header row (wrapped if needed) followed by the
below-header rule. -/
def headerBlock (style : TableStyle) (pad2 : Nat) (t : GoTable) :
    Option (GoTable × Str) :=
  if t.hasHeader then
    match writeRow style.HeaderRow style.Padding t (t.cols.map (·.Header)) with
    | none => none
    | some (t1, s) =>
      let below := if style.LineBelowHeader.Visible then
          lineBlock style.LineBelowHeader pad2 t1.minWidths t1.maxWidths
        else []
      some (t1, s ++ below)
  else some (t, [])

/-- `Render` with an already-resolved style: check widths, then top rule,
header block, all rows with between-rules, bottom rule. -/
def renderWith (t0 : GoTable) (style : TableStyle) : GoTable × Option Str :=
  let t := t0.checkWidths
  let pad2 := bytLen style.Padding * 2
  let top := if style.LineTop.Visible then lineBlock style.LineTop pad2 t.minWidths t.maxWidths
    else []
  match headerBlock style pad2 t with
  | none => (t, none)
  | some (t1, hs) =>
    match rowsLoop style pad2 t1 true t1.rows with
    | none => (t1, none)
    | some (t2, rs) =>
      let bottom := if style.LineBottom.Visible then
          lineBlock style.LineBottom pad2 t2.minWidths t2.maxWidths
        else []
      (t2, some (top ++ hs ++ rs ++ bottom))

/-- `Render(style)`: the style argument falls back to the table's style, then
to `StyleGrid`.  Returns the mutated table and the produced bytes (`none`
models a formatting panic). -/
def GoTable.Render (t : GoTable) (style : Option TableStyle) : GoTable × Option Str :=
  renderWith t (match style with
    | some s => s
    | none => t.style.getD StyleGrid)

-- --------------------------------------------------------------------------
-- Streaming: AddRow and Flush

/-- The result of one `AddRow` call: a returned error, a modelled panic, or
success together with the bytes written to the sink during the call. -/
inductive AddRes where
  | err (t : GoTable) (e : GoErr)
  | panicked
  | ok (t : GoTable) (out : Str)
deriving DecidableEq, Repr

/-- The buffering branch of `AddRow`: validate the row and append it. -/
def addRowBuffer (t : GoTable) (row : List Str) : AddRes :=
  match t.checkRow row with
  | (t1, .error e) => .err t1 e
  | (t1, .ok r) => .ok { t1 with rows := t1.rows ++ [r], dataAdded := true } []

/-- The streaming branch of `AddRow` (buffer already dumped): a between-rows
rule, then the row formatted against the already-resolved widths, written
immediately; the row is not kept. -/
def addRowStream (t : GoTable) (row : List Str) : AddRes :=
  let style := t.style.getD StyleGrid
  let pad2 := bytLen style.Padding * 2
  match t.checkRow row with
  | (t1, .error e) => .err t1 e
  | (t1, .ok r) =>
    let betw := if style.LineBetweenRows.Visible then
        lineBlock style.LineBetweenRows pad2 t1.minWidths t1.maxWidths
      else []
    match writeRow style.DataRow style.Padding t1 r with
    | none => .panicked
    | some (t2, s) => .ok t2 (betw ++ s)

/-- The threshold branch of `AddRow`: resolve widths from the buffered rows,
append the new row, then emit top rule, header block and every row (the
buffered ones plus the new one), and mark the buffer dumped. -/
def addRowDump (t : GoTable) (row : List Str) : AddRes :=
  let style := t.style.getD StyleGrid
  let pad2 := bytLen style.Padding * 2
  match t.checkWidths.checkRow row with
  | (t1, .error e) => .err t1 e
  | (t1, .ok r) =>
    let t2 : GoTable := { t1 with rows := t1.rows ++ [r], dataAdded := true }
    let top := if style.LineTop.Visible then
        lineBlock style.LineTop pad2 t2.minWidths t2.maxWidths
      else []
    match headerBlock style pad2 t2 with
    | none => .panicked
    | some (t3, hs) =>
      match rowsLoop style pad2 t3 true t3.rows with
      | none => .panicked
      | some (t4, rs) => .ok { t4 with bufRowsDumped := true } (top ++ hs ++ rs)

/-- `AddRow`: reject after flush; buffer while no writer is attached or the
buffer is below the threshold; on the call with a buffer of exactly the
threshold size resolve widths from the buffered prefix and dump everything;
afterwards format and write each row immediately.  In the (unreachable)
writer state where the buffer exceeds the threshold without having been
dumped, no branch applies and the call returns nil without mutation. -/
def GoTable.AddRow (t : GoTable) (row : List Str) : AddRes :=
  if t.hasWriter ∧ t.flushed then .err t .addRowAfterFlush
  else if t.hasWriter = false ∨ t.rows.length < t.bufRows then addRowBuffer t row
  else if t.bufRowsDumped then addRowStream t row
  else if t.rows.length = t.bufRows then addRowDump t row
  else .ok t []

/-- `Flush`: mark flushed; if the buffered rows were already dumped only the
bottom rule remains, otherwise render and write the whole buffered table. -/
def GoTable.Flush (t0 : GoTable) : GoTable × Option Str :=
  let t : GoTable := { t0 with flushed := true }
  let style := t.style.getD StyleGrid
  let pad2 := bytLen style.Padding * 2
  if t.bufRowsDumped then
    (t, some (if style.LineBottom.Visible then
        lineBlock style.LineBottom pad2 t.minWidths t.maxWidths
      else []))
  else
    renderWith t style

/-- Run a sequence of `AddRow` calls, concatenating everything written;
errors leave the table as the call left it and write nothing. -/
def runAdds : GoTable → List (List Str) → Option (GoTable × Str)
  | t, [] => some (t, [])
  | t, r :: rs =>
    match t.AddRow r with
    | .ok t1 out => (runAdds t1 rs).map fun p => (p.1, out ++ p.2)
    | .err t1 _ => runAdds t1 rs
    | .panicked => none

-- --------------------------------------------------------------------------
-- Basic facts about byte lengths and display widths

theorem rlen_pos (c : Char) : 1 ≤ rlen c := by
  unfold rlen; split_ifs <;> omega

theorem runeW_le_two (c : Char) : runeW c ≤ 2 := by
  unfold runeW; split_ifs <;> omega

theorem runeW_le_rlen (c : Char) : runeW c ≤ rlen c := by
  have h4 : 0x1100 ≤ c.toNat → 3 ≤ rlen c := by
    intro h; unfold rlen; split_ifs <;> omega
  have h1 : 1 ≤ rlen c := rlen_pos c
  have hwide : inRanges doubleWidthRanges c.toNat = true → 0x1100 ≤ c.toNat := by
    intro h
    rcases List.any_eq_true.mp h with ⟨p, hp, hd⟩
    have hd2 := of_decide_eq_true hd
    have : 0x1100 ≤ p.1 := by
      fin_cases hp <;> norm_num
    omega
  unfold runeW; split_ifs with h2 h3 <;> try omega
  exact le_trans (by omega : (2 : Nat) ≤ 3) (h4 (hwide h3))

theorem bytLen_append (a b : Str) : bytLen (a ++ b) = bytLen a + bytLen b := by
  induction a with
  | nil => simp [bytLen]
  | cons c cs ih => simp [bytLen, ih]; omega

theorem strW_append (a b : Str) : strW (a ++ b) = strW a + strW b := by
  induction a with
  | nil => simp [strW]
  | cons c cs ih => simp [strW, ih]; omega

theorem strW_le_bytLen (s : Str) : strW s ≤ bytLen s := by
  induction s with
  | nil => simp [strW, bytLen]
  | cons c cs ih =>
    have := runeW_le_rlen c
    simp only [strW, bytLen]; omega

theorem length_le_bytLen (s : Str) : s.length ≤ bytLen s := by
  induction s with
  | nil => simp [bytLen]
  | cons c cs ih =>
    have := rlen_pos c
    simp only [bytLen, List.length_cons]; omega

theorem bytLen_take_add_drop (n : Nat) (s : Str) :
    bytLen (s.take n) + bytLen (s.drop n) = bytLen s := by
  rw [← bytLen_append, List.take_append_drop]

theorem bytLen_take_pos (n : Nat) (s : Str) (h1 : 1 ≤ n) (h2 : n ≤ s.length) :
    1 ≤ bytLen (s.take n) := by
  have hlen : (s.take n).length = n := by
    simp [List.length_take]; omega
  have := length_le_bytLen (s.take n)
  omega

-- --------------------------------------------------------------------------
-- Formatting touches only the wrap delimiter and the clip mark

/-- All table fields except `wrapDelimiter` and `clipMark` agree: formatting a
row may only default the delimiter and clear the clip mark. -/
def coreEq (a b : GoTable) : Prop :=
  a.rows = b.rows ∧ a.columns = b.columns ∧ a.nColumns = b.nColumns ∧
  a.dataAdded = b.dataAdded ∧ a.hasHeader = b.hasHeader ∧
  a.minWidths = b.minWidths ∧ a.maxWidths = b.maxWidths ∧
  a.widthsChecked = b.widthsChecked ∧ a.align = b.align ∧ a.minWidth = b.minWidth ∧
  a.maxWidth = b.maxWidth ∧ a.clipCell = b.clipCell ∧ a.style = b.style ∧
  a.hasWriter = b.hasWriter ∧ a.bufRows = b.bufRows ∧
  a.bufRowsDumped = b.bufRowsDumped ∧ a.flushed = b.flushed

theorem coreEq_refl (a : GoTable) : coreEq a a := by
  unfold coreEq; repeat' constructor

theorem coreEq_trans {a b c : GoTable} (h1 : coreEq a b) (h2 : coreEq b c) : coreEq a c := by
  unfold coreEq at *
  obtain ⟨e1, e2, e3, e4, e5, e6, e7, e8, e9, e10, e11, e12, e13, e14, e15, e16, e17⟩ := h1
  obtain ⟨f1, f2, f3, f4, f5, f6, f7, f8, f9, f10, f11, f12, f13, f14, f15, f16, f17⟩ := h2
  exact ⟨e1.trans f1, e2.trans f2, e3.trans f3, e4.trans f4, e5.trans f5, e6.trans f6,
    e7.trans f7, e8.trans f8, e9.trans f9, e10.trans f10, e11.trans f11, e12.trans f12,
    e13.trans f13, e14.trans f14, e15.trans f15, e16.trans f16, e17.trans f17⟩

theorem formatRow_coreEq (t t1 : GoTable) (row : List Str) (w : Bool) (wr : List (List Str))
    (h : t.formatRow row = some (t1, w, wr)) : coreEq t1 t := by
  simp only [GoTable.formatRow] at h
  split at h <;> split at h <;> (try split at h) <;>
    first
      | exact Option.noConfusion h
      | (simp only [Option.some_inj, Prod.mk.injEq] at h
         obtain ⟨h1, -⟩ := h
         subst h1
         simp [coreEq])

theorem writeRow_coreEq (rs : RowStyle) (pad : Str) (t t2 : GoTable) (row : List Str)
    (s : Str) (h : writeRow rs pad t row = some (t2, s)) : coreEq t2 t := by
  simp only [writeRow] at h
  split at h
  · simp at h
  · rename_i t1 wrapped wr hfmt
    have hc := formatRow_coreEq t t1 row wrapped wr hfmt
    split at h <;> split at h <;>
      first
        | exact Option.noConfusion h
        | (simp only [Option.some_inj, Prod.mk.injEq] at h
           obtain ⟨h1, -⟩ := h
           subst h1
           exact hc)

theorem rowsLoop_coreEq (style : TableStyle) (pad2 : Nat) (rows : List (List Str)) :
    ∀ (t t2 : GoTable) (first : Bool) (s : Str),
    rowsLoop style pad2 t first rows = some (t2, s) → coreEq t2 t := by
  induction rows with
  | nil =>
    intro t t2 first s h
    simp only [rowsLoop, Option.some_inj, Prod.mk.injEq] at h
    obtain ⟨h1, -⟩ := h
    subst h1; exact coreEq_refl t
  | cons r rest ih =>
    intro t t2 first s h
    simp only [rowsLoop] at h
    split at h
    · simp at h
    · rename_i t1 s1 hw
      split at h
      · simp at h
      · rename_i tq sq hrest
        simp only [Option.some_inj, Prod.mk.injEq] at h
        obtain ⟨h1, -⟩ := h
        subst h1
        exact coreEq_trans (ih t1 tq false sq hrest) (writeRow_coreEq _ _ t t1 r s1 hw)

theorem headerBlock_coreEq (style : TableStyle) (pad2 : Nat) (t t1 : GoTable) (s : Str)
    (h : headerBlock style pad2 t = some (t1, s)) : coreEq t1 t := by
  simp only [headerBlock] at h
  split at h
  · split at h
    · simp at h
    · rename_i tw sw hw
      simp only [Option.some_inj, Prod.mk.injEq] at h
      obtain ⟨h1, -⟩ := h
      subst h1
      exact writeRow_coreEq _ _ t _ _ _ hw
  · simp only [Option.some_inj, Prod.mk.injEq] at h
    obtain ⟨h1, -⟩ := h
    subst h1; exact coreEq_refl t

/-- The error returned by an `AddRow` call, if any. -/
def AddRes.errOf : AddRes → Option GoErr
  | .err _ e => some e
  | _ => none

/-- The table after a successful `AddRow` call. -/
def AddRes.okTab : AddRes → Option GoTable
  | .ok t _ => some t
  | _ => none

/-- The bytes written by a successful `AddRow` call. -/
def AddRes.okOut : AddRes → Option Str
  | .ok _ out => some out
  | _ => none

/-- `checkRow` can change only `columns` and `nColumns`. -/
theorem checkRow_keeps (t : GoTable) (row : List Str) :
    (t.checkRow row).1.rows = t.rows ∧ (t.checkRow row).1.dataAdded = t.dataAdded ∧
    (t.checkRow row).1.minWidths = t.minWidths ∧ (t.checkRow row).1.maxWidths = t.maxWidths ∧
    (t.checkRow row).1.bufRowsDumped = t.bufRowsDumped ∧
    (t.checkRow row).1.hasHeader = t.hasHeader ∧
    (t.checkRow row).1.widthsChecked = t.widthsChecked ∧
    (t.checkRow row).1.hasWriter = t.hasWriter ∧ (t.checkRow row).1.bufRows = t.bufRows ∧
    (t.checkRow row).1.flushed = t.flushed ∧ (t.checkRow row).1.style = t.style ∧
    (t.checkRow row).1.align = t.align ∧ (t.checkRow row).1.minWidth = t.minWidth ∧
    (t.checkRow row).1.maxWidth = t.maxWidth ∧ (t.checkRow row).1.clipCell = t.clipCell ∧
    (t.checkRow row).1.clipMark = t.clipMark ∧
    (t.checkRow row).1.wrapDelimiter = t.wrapDelimiter := by
  unfold GoTable.checkRow
  split <;> (try split) <;> (try split) <;> simp

theorem addRowBuffer_dataAdded (t t' : GoTable) (row : List Str) (out : Str)
    (h : addRowBuffer t row = .ok t' out) : t'.dataAdded = true := by
  unfold addRowBuffer at h
  split at h
  · exact AddRes.noConfusion h
  · simp only [AddRes.ok.injEq] at h
    obtain ⟨h1, -⟩ := h
    subst h1
    rfl

theorem addRowStream_dataAdded (t t' : GoTable) (row : List Str) (out : Str)
    (h : addRowStream t row = .ok t' out) : t'.dataAdded = t.dataAdded := by
  simp only [addRowStream] at h
  split at h
  · exact AddRes.noConfusion h
  · rename_i t1 r heq
    split at h
    · exact AddRes.noConfusion h
    · rename_i t2 s hwrow
      simp only [AddRes.ok.injEq] at h
      obtain ⟨h1, -⟩ := h
      subst h1
      have hc := writeRow_coreEq _ _ t1 t2 r s hwrow
      have hk := (checkRow_keeps t row).2.1
      rw [heq] at hk
      obtain ⟨-, -, -, hd, -⟩ := hc
      rw [hd, hk]

theorem addRowDump_dataAdded (t t' : GoTable) (row : List Str) (out : Str)
    (h : addRowDump t row = .ok t' out) : t'.dataAdded = true := by
  simp only [addRowDump] at h
  split at h
  · exact AddRes.noConfusion h
  · rename_i t1 r heq
    split at h
    · exact AddRes.noConfusion h
    · rename_i t3 hs hhb
      split at h
      · exact AddRes.noConfusion h
      · rename_i t4 rs hloop
        simp only [AddRes.ok.injEq] at h
        obtain ⟨h1, -⟩ := h
        subst h1
        have hc3 := headerBlock_coreEq _ _ _ t3 hs hhb
        have hc4 := rowsLoop_coreEq _ _ _ t3 t4 true rs hloop
        obtain ⟨-, -, -, hd4, -⟩ := hc4
        obtain ⟨-, -, -, hd3, -⟩ := hc3
        show t4.dataAdded = true
        rw [hd4, hd3]

/-- A successful `AddRow` leaves `dataAdded` set, provided the writer
threshold is at least 1 and `dataAdded` already holds whenever rows exist
(both hold in every reachable state). -/
theorem addRow_ok_dataAdded (t t' : GoTable) (row : List Str) (out : Str)
    (hbuf : t.hasWriter = true → 1 ≤ t.bufRows)
    (hinv : t.rows ≠ [] → t.dataAdded = true)
    (hok : t.AddRow row = .ok t' out) : t'.dataAdded = true := by
  unfold GoTable.AddRow at hok
  split at hok
  · exact AddRes.noConfusion hok
  · split at hok
    · exact addRowBuffer_dataAdded t t' row out hok
    · rename_i hflush hover
      split at hok
      · have hd := addRowStream_dataAdded t t' row out hok
        simp only [not_or, not_lt] at hover
        obtain ⟨hw, hge⟩ := hover
        have hwt : t.hasWriter = true := by
          cases hhw : t.hasWriter
          · exact absurd hhw hw
          · rfl
        have h1 := hbuf hwt
        have hrows : t.rows ≠ [] := by
          intro hnil
          rw [hnil] at hge
          simp at hge
          omega
        rw [hd]
        exact hinv hrows
      · split at hok
        · exact addRowDump_dataAdded t t' row out hok
        · rename_i hneq
          simp only [AddRes.ok.injEq] at hok
          obtain ⟨h1, -⟩ := hok
          subst h1
          simp only [not_or, not_lt] at hover
          obtain ⟨hw, hge⟩ := hover
          have hrows : t.rows ≠ [] := by
            intro hnil
            rw [hnil] at hge hneq
            simp at hge hneq
            omega
          exact hinv hrows

-- --------------------------------------------------------------------------
-- Claim C10

/-- C10: the global `MinWidth` and `MaxWidth` setters mutually clamp.  After
either setter call, whenever both stored global bounds are positive,
`minWidth ≤ maxWidth`; `MinWidth w` stores `maxWidth` instead of `w` when
`maxWidth > 0` and `w > maxWidth`, and `MaxWidth w` stores `minWidth` instead
of `w` when `minWidth > 0` and `w < minWidth`. -/
theorem C10_minWidth_maxWidth_mutual_clamp (t : GoTable) (w : Int) :
    ((t.MinWidth w).minWidth > 0 ∧ (t.MinWidth w).maxWidth > 0 →
      (t.MinWidth w).minWidth ≤ (t.MinWidth w).maxWidth) ∧
    ((t.MaxWidth w).minWidth > 0 ∧ (t.MaxWidth w).maxWidth > 0 →
      (t.MaxWidth w).minWidth ≤ (t.MaxWidth w).maxWidth) ∧
    (t.maxWidth > 0 ∧ w > t.maxWidth → (t.MinWidth w).minWidth = t.maxWidth) ∧
    (t.minWidth > 0 ∧ w < t.minWidth → (t.MaxWidth w).maxWidth = t.minWidth) := by
  unfold GoTable.MinWidth GoTable.MaxWidth
  split_ifs with h1 h2 <;> simp_all

/-- Witness for C10 at a concrete table: `MinWidth 7` after `MaxWidth 5`
stores 5. -/
theorem C10_minWidth_maxWidth_mutual_clamp_witness :
    (New.MaxWidth 5).maxWidth > 0 ∧ (7 : Int) > (New.MaxWidth 5).maxWidth ∧
    ((New.MaxWidth 5).MinWidth 7).minWidth = (New.MaxWidth 5).maxWidth :=
  ⟨by decide, by decide,
    (C10_minWidth_maxWidth_mutual_clamp (New.MaxWidth 5) 7).2.2.1 ⟨by decide, by decide⟩⟩

-- --------------------------------------------------------------------------
-- Claim C9

/-- C9: once a row has been added (any successful `AddRow` from a state
satisfying the reachable-state invariants), `Header` and `HeaderWithFormat`
return `ErrSetHeaderAfterDataAdded` and leave the table — columns, header
flag, column count — unchanged; before any data is added they succeed. -/
theorem C9_header_rejected_after_data (t t' : GoTable) (row : List Str) (out : Str)
    (hs : List Str) (cs : List Column)
    (hbuf : t.hasWriter = true → 1 ≤ t.bufRows)
    (hinv : t.rows ≠ [] → t.dataAdded = true)
    (hok : t.AddRow row = .ok t' out) :
    t'.Header hs = (t', some .setHeaderAfterDataAdded) ∧
    t'.HeaderWithFormat cs = (t', some .setHeaderAfterDataAdded) ∧
    (t.dataAdded = false →
      (t.Header hs).2 = none ∧ (t.Header hs).1.hasHeader = true ∧
      (t.Header hs).1.nColumns = hs.length ∧
      (t.HeaderWithFormat cs).2 = none ∧ (t.HeaderWithFormat cs).1.hasHeader = true ∧
      (t.HeaderWithFormat cs).1.nColumns = cs.length) := by
  have hda := addRow_ok_dataAdded t t' row out hbuf hinv hok
  refine ⟨?_, ?_, ?_⟩
  · simp [GoTable.Header, hda]
  · simp [GoTable.HeaderWithFormat, hda]
  · intro hdf
    simp [GoTable.Header, GoTable.HeaderWithFormat, hdf]

/-- The table produced by adding one row to a fresh table. -/
def c9Table : GoTable :=
  { New with rows := [[str "x"]], columns := some [{}], nColumns := 1, dataAdded := true }

/-- Witness for C9 at a concrete input. -/
theorem C9_header_rejected_after_data_witness :
    c9Table.Header [str "h"] = (c9Table, some .setHeaderAfterDataAdded) ∧
    c9Table.HeaderWithFormat [] = (c9Table, some .setHeaderAfterDataAdded) ∧
    (New.dataAdded = false →
      (New.Header [str "h"]).2 = none ∧ (New.Header [str "h"]).1.hasHeader = true ∧
      (New.Header [str "h"]).1.nColumns = [str "h"].length ∧
      (New.HeaderWithFormat []).2 = none ∧ (New.HeaderWithFormat []).1.hasHeader = true ∧
      (New.HeaderWithFormat []).1.nColumns = ([] : List Column).length) :=
  C9_header_rejected_after_data New c9Table [str "x"] [] [str "h"] []
    (by decide) (by decide) (by decide)

-- --------------------------------------------------------------------------
-- Claim C8

/-- `checkWidths` changes only the width statistics. -/
theorem checkWidths_keeps (t : GoTable) :
    t.checkWidths.rows = t.rows ∧ t.checkWidths.columns = t.columns ∧
    t.checkWidths.nColumns = t.nColumns ∧ t.checkWidths.dataAdded = t.dataAdded ∧
    t.checkWidths.hasHeader = t.hasHeader ∧ t.checkWidths.hasWriter = t.hasWriter ∧
    t.checkWidths.bufRows = t.bufRows ∧ t.checkWidths.bufRowsDumped = t.bufRowsDumped ∧
    t.checkWidths.flushed = t.flushed ∧ t.checkWidths.style = t.style ∧
    t.checkWidths.align = t.align ∧ t.checkWidths.minWidth = t.minWidth ∧
    t.checkWidths.maxWidth = t.maxWidth ∧ t.checkWidths.clipCell = t.clipCell ∧
    t.checkWidths.clipMark = t.clipMark ∧
    t.checkWidths.wrapDelimiter = t.wrapDelimiter := by
  unfold GoTable.checkWidths
  simp

/-- The table state after a first row fixes the column count: columns are
zero-value, `nColumns` is the row's length, the row is appended. -/
def firstRowFixed (t : GoTable) (row : List Str) : GoTable :=
  { t with
    columns := some (List.replicate row.length emptyColumn)
    nColumns := row.length
    rows := t.rows ++ [row]
    dataAdded := true }

/-- `checkRow` on an established column count rejects a mismatched row and
returns the table untouched. -/
theorem checkRow_mismatch (t : GoTable) (row : List Str)
    (hest : t.hasHeader = true ∨ t.columns.isSome)
    (hne : row.length ≠ t.nColumns) :
    t.checkRow row = (t, .error .unmatchedColumnNumber) := by
  unfold GoTable.checkRow
  rcases hcol : t.columns with - | cs
  · rcases hest with hh | hsome
    · rw [hh]; simp [hne]
    · rw [hcol] at hsome; simp at hsome
  · cases hh : t.hasHeader
    · simp [hne]
    · simp [hne]

/-- C8 (amended): for a non-flushed table in a reachable buffering state (a
writer's undumped buffer never exceeds its threshold), once the column count
is established (header or a first row), `AddRow` with a mismatched row
returns `ErrUnmatchedColumnNumber` and leaves the row list, its length and
the `dataAdded` flag untouched; a flushed table with a writer instead yields
the add-after-flush error; when no header and no columns exist, the first
row's length fixes `nColumns`. -/
theorem C8_addRow_mismatch_rejected (t : GoTable) (row : List Str)
    (hnf : ¬(t.hasWriter = true ∧ t.flushed = true))
    (hreach : t.hasWriter = true → t.bufRowsDumped = false →
      t.rows.length ≤ t.bufRows) :
    ((t.hasHeader = true ∨ t.columns.isSome) → row.length ≠ t.nColumns →
      ∃ t1, t.AddRow row = .err t1 .unmatchedColumnNumber ∧
        t1.rows = t.rows ∧ t1.rows.length = t.rows.length ∧ t1.dataAdded = t.dataAdded) ∧
    (t.hasHeader = false → t.columns = none →
      (t.hasWriter = false ∨ t.rows.length < t.bufRows) →
      t.AddRow row = .ok (firstRowFixed t row) []) := by
  constructor
  · intro hest hne
    unfold GoTable.AddRow
    rw [if_neg hnf]
    by_cases hb : t.hasWriter = false ∨ t.rows.length < t.bufRows
    · rw [if_pos hb]
      refine ⟨t, ?_, rfl, rfl, rfl⟩
      unfold addRowBuffer
      rw [checkRow_mismatch t row hest hne]
    · rw [if_neg hb]
      by_cases hd : t.bufRowsDumped = true
      · rw [if_pos hd]
        refine ⟨t, ?_, rfl, rfl, rfl⟩
        simp only [addRowStream]
        rw [checkRow_mismatch t row hest hne]
      · rw [if_neg hd]
        have hw2 : t.hasWriter = true := by
          cases hhw : t.hasWriter
          · exact absurd (Or.inl hhw) hb
          · rfl
        have hge : t.bufRows ≤ t.rows.length := by
          rcases not_or.mp hb with ⟨-, h2⟩
          exact not_lt.mp h2
        have hbd0 : t.bufRowsDumped = false := by
          cases hbdc : t.bufRowsDumped
          · rfl
          · exact absurd hbdc hd
        have hk : t.rows.length = t.bufRows :=
          le_antisymm (hreach hw2 hbd0) hge
        rw [if_pos hk]
        refine ⟨t.checkWidths, ?_, (checkWidths_keeps t).1,
          by rw [(checkWidths_keeps t).1], (checkWidths_keeps t).2.2.2.1⟩
        simp only [addRowDump]
        have hest2 : t.checkWidths.hasHeader = true ∨ t.checkWidths.columns.isSome := by
          rw [(checkWidths_keeps t).2.2.2.2.1, (checkWidths_keeps t).2.1]
          exact hest
        have hne2 : row.length ≠ t.checkWidths.nColumns := by
          rw [(checkWidths_keeps t).2.2.1]
          exact hne
        rw [checkRow_mismatch t.checkWidths row hest2 hne2]
  · intro hh hc hb
    unfold GoTable.AddRow
    rw [if_neg hnf, if_pos hb]
    unfold addRowBuffer GoTable.checkRow
    rw [hh, hc]
    simp [firstRowFixed, hh]

/-- A flushed streaming table: `Header(["a","b"])`, `Writer(w, 1)`, `Flush()`. -/
def c8Flushed : GoTable := ((((New.Header [str "a", str "b"]).1.Writer 1).1).Flush).1

/-- Counterexample to C8 as stated: on a flushed table with an established
column count of 2, `AddRow` with a 1-cell row returns the add-after-flush
error, not the column-count-mismatch error. -/
theorem C8_counterexample :
    c8Flushed.hasHeader = true ∧ [str "x"].length ≠ c8Flushed.nColumns ∧
    c8Flushed.AddRow [str "x"] = .err c8Flushed .addRowAfterFlush ∧
    GoErr.addRowAfterFlush ≠ GoErr.unmatchedColumnNumber := by
  refine ⟨by decide, by decide, ?_, by decide⟩
  decide

/-- Witness for C8 at concrete inputs: a 3-cell row against a 2-column header
is rejected without mutation, and a first row fixes the column count. -/
theorem C8_addRow_mismatch_rejected_witness :
    (∃ t1, (New.Header [str "a", str "b"]).1.AddRow [str "x", str "y", str "z"] =
        .err t1 .unmatchedColumnNumber ∧
      t1.rows = (New.Header [str "a", str "b"]).1.rows ∧
      t1.rows.length = (New.Header [str "a", str "b"]).1.rows.length ∧
      t1.dataAdded = (New.Header [str "a", str "b"]).1.dataAdded) ∧
    New.AddRow [str "x", str "y"] = .ok (firstRowFixed New [str "x", str "y"]) [] := by
  constructor
  · exact (C8_addRow_mismatch_rejected (New.Header [str "a", str "b"]).1
      [str "x", str "y", str "z"] (by decide) (by decide)).1 (by decide) (by decide)
  · have h := (C8_addRow_mismatch_rejected New [str "x", str "y"] (by decide) (by decide)).2
      (by decide) (by decide) (by decide)
    rw [h]

-- --------------------------------------------------------------------------
-- Claim C7

/-- C7: clipping an already-fitting string is the identity: when the display
width of a cell is at most the effective column width, the clip path of
`formatRow` (byte-length gate, then `runewidth.Truncate`) returns the cell
unchanged, for any clip mark. -/
theorem truncate_of_fits (s : Str) (w : Int) (tail : Str)
    (h : (strW s : Int) ≤ w) : truncate s w tail = s := by
  unfold truncate
  rw [if_pos h]

theorem C7_clip_fitting_unchanged (mark : Str) (delim : Char) (minW colMax : Int)
    (cell : Str)
    (hfit : (strW cell : Int) ≤ (if colMax < minW then minW else colMax)) :
    (formatCellLines true delim minW mark cell colMax).map Prod.fst = some [cell] := by
  simp only [formatCellLines]
  split_ifs with h1 h2 h3 <;>
    first
      | rfl
      | (rw [if_pos h1] at hfit
         simp [truncate_of_fits _ _ _ hfit])
      | (rw [if_neg h1] at hfit
         simp [truncate_of_fits _ _ _ hfit])

/-- Witness for C7: a CJK cell of byte length 6 but display width 4 at column
width 5 survives clipping unchanged. -/
theorem C7_clip_fitting_unchanged_witness :
    (strW (str "沈伟") : Int) ≤ (if (5 : Int) < 0 then 0 else 5) ∧
    (formatCellLines true ' ' 0 (str "...") (str "沈伟") 5).map Prod.fst =
      some [str "沈伟"] :=
  ⟨by decide, C7_clip_fitting_unchanged (str "...") ' ' 0 5 (str "沈伟") (by decide)⟩

-- --------------------------------------------------------------------------
-- Claim C6

/-- Counterexample to C6: a cell containing a literal newline whose byte
length is within the column width is emitted as one unbroken line - the
current wrap/clip engine gives a newline no special treatment, so it is not a
forced break point. -/
theorem C6_counterexample :
    ('\n' ∈ str "a\nb") ∧
    formatCellLines false ' ' 0 [] (str "a\nb") 5 = some ([str "a\nb"], []) := by
  exact ⟨by decide, by decide⟩

/-- C6 (amended): a literal newline is not a forced break point: any cell -
including one containing newlines - whose byte length is at most the
effective column width is kept as a single display line. -/
theorem C6_newline_not_forced_break (clip : Bool) (mark : Str) (delim : Char)
    (minW colMax : Int) (cell : Str) (_hnl : '\n' ∈ cell)
    (hfit : (bytLen cell : Int) ≤ (if colMax < minW then minW else colMax)) :
    formatCellLines clip delim minW mark cell colMax = some ([cell], mark) := by
  simp only [formatCellLines]
  rw [if_pos hfit]

/-- Witness for C6 (amended) at a concrete newline-carrying cell. -/
theorem C6_newline_not_forced_break_witness :
    ('\n' ∈ str "x\ny") ∧
    ((bytLen (str "x\ny") : Int) ≤ (if (8 : Int) < 0 then 0 else 8)) ∧
    formatCellLines true ' ' 0 (str "..") (str "x\ny") 8 =
      some ([str "x\ny"], str "..") :=
  ⟨by decide, by decide,
    C6_newline_not_forced_break true (str "..") ' ' 0 8 (str "x\ny")
      (by decide) (by decide)⟩

-- --------------------------------------------------------------------------
-- Width-resolution lemmas

theorem updMax_length (ws : List Int) (vs : List Str) :
    (updMax ws vs).length = ws.length := by
  induction ws generalizing vs with
  | nil => cases vs <;> simp [updMax]
  | cons w ws ih => cases vs <;> simp [updMax, ih]

theorem updMin_length (ws : List Int) (vs : List Str) :
    (updMin ws vs).length = ws.length := by
  induction ws generalizing vs with
  | nil => cases vs <;> simp [updMin]
  | cons w ws ih => cases vs <;> simp [updMin, ih]

theorem foldl_updMax_length (rows : List (List Str)) (ws : List Int) :
    (rows.foldl updMax ws).length = ws.length := by
  induction rows generalizing ws with
  | nil => rfl
  | cons r rest ih => simp [List.foldl_cons, ih, updMax_length]

theorem foldl_updMin_length (rows : List (List Str)) (ws : List Int) :
    (rows.foldl updMin ws).length = ws.length := by
  induction rows generalizing ws with
  | nil => rfl
  | cons r rest ih => simp [List.foldl_cons, ih, updMin_length]

/-- Pointwise `min ≤ max` is preserved by one row's extreme updates. -/
theorem updPair_pres (vs : List Str) :
    ∀ (ms xs : List Int), List.Forall₂ (· ≤ ·) ms xs →
    List.Forall₂ (· ≤ ·) (updMin ms vs) (updMax xs vs) := by
  induction vs with
  | nil =>
    intro ms xs h
    cases h with
    | nil => simp [updMin, updMax]
    | cons h1 h2 => simpa [updMin, updMax] using List.Forall₂.cons h1 h2
  | cons v vs ih =>
    intro ms xs h
    cases h with
    | nil => simp [updMin, updMax]
    | @cons m x ms xs h1 h2 =>
      simp only [updMin, updMax]
      refine List.Forall₂.cons ?_ (ih ms xs h2)
      split_ifs <;> omega

/-- One full-length row update establishes pointwise `min ≤ max`. -/
theorem updPair_est (vs : List Str) :
    ∀ (ms xs : List Int), ms.length = vs.length → xs.length = vs.length →
    List.Forall₂ (· ≤ ·) (updMin ms vs) (updMax xs vs) := by
  induction vs with
  | nil =>
    intro ms xs hm hx
    rw [List.length_nil] at hm hx
    rw [List.length_eq_zero] at hm hx
    subst hm; subst hx
    simp [updMin, updMax]
  | cons v vs ih =>
    intro ms xs hm hx
    cases ms with
    | nil => simp at hm
    | cons m ms =>
      cases xs with
      | nil => simp at hx
      | cons x xs =>
        simp only [List.length_cons] at hm hx
        simp only [updMin, updMax]
        refine List.Forall₂.cons ?_ (ih ms xs (by omega) (by omega))
        split_ifs <;> omega

theorem foldl_updPair_pres (rows : List (List Str)) :
    ∀ (ms xs : List Int), List.Forall₂ (· ≤ ·) ms xs →
    List.Forall₂ (· ≤ ·) (rows.foldl updMin ms) (rows.foldl updMax xs) := by
  induction rows with
  | nil => intro ms xs h; exact h
  | cons r rest ih =>
    intro ms xs h
    exact ih _ _ (updPair_pres r ms xs h)

/-- Every list entry is nonnegative after a `updMin` pass over nonnegative
entries. -/
theorem updMin_nonneg (vs : List Str) :
    ∀ (ms : List Int), (∀ m ∈ ms, (0 : Int) ≤ m) →
    ∀ m ∈ updMin ms vs, (0 : Int) ≤ m := by
  induction vs with
  | nil =>
    intro ms h
    cases ms <;> simpa [updMin] using h
  | cons v vs ih =>
    intro ms h
    cases ms with
    | nil => simp [updMin]
    | cons m ms =>
      simp only [updMin]
      intro x hx
      rcases List.mem_cons.mp hx with hx1 | hx2
      · subst hx1
        have := h m (by simp)
        split_ifs <;> positivity
      · exact ih ms (fun y hy => h y (by simp [hy])) x hx2

theorem foldl_updMin_nonneg (rows : List (List Str)) :
    ∀ (ms : List Int), (∀ m ∈ ms, (0 : Int) ≤ m) →
    ∀ m ∈ rows.foldl updMin ms, (0 : Int) ≤ m := by
  induction rows with
  | nil => intro ms h; exact h
  | cons r rest ih =>
    intro ms h
    exact ih _ (updMin_nonneg r ms h)

/-- The constraint pass floors every processed maximum at 5. -/
theorem applyCons_max_ge5 (tMin tMax : Int) (cs : List Column) :
    ∀ (ms xs : List Int), cs.length = xs.length → ms.length = xs.length →
    ∀ x ∈ (applyCons tMin tMax cs ms xs).2, (5 : Int) ≤ x := by
  induction cs with
  | nil =>
    intro ms xs hc hm
    have hx : xs = [] := by
      rw [List.length_nil] at hc
      exact List.length_eq_zero.mp hc.symm
    subst hx
    simp [applyCons]
  | cons c cs ih =>
    intro ms xs hc hm
    cases xs with
    | nil => simp [applyCons]
    | cons x xs =>
      cases ms with
      | nil => simp at hm
      | cons m ms =>
        simp only [List.length_cons] at hc hm
        simp only [applyCons]
        intro y hy
        rcases List.mem_cons.mp hy with hy1 | hy2
        · subst hy1
          split_ifs <;> omega
        · exact ih ms xs (by omega) (by omega) y hy2

/-- The constraint pass keeps every minimum nonnegative. -/
theorem applyCons_min_nonneg (tMin tMax : Int) (cs : List Column) :
    ∀ (ms xs : List Int), (∀ m ∈ ms, (0 : Int) ≤ m) →
    ∀ m ∈ (applyCons tMin tMax cs ms xs).1, (0 : Int) ≤ m := by
  induction cs with
  | nil => intro ms xs h; simp only [applyCons]; exact h
  | cons c cs ih =>
    intro ms xs h
    cases xs with
    | nil => simp only [applyCons]; exact h
    | cons x xs =>
      cases ms with
      | nil => simp [applyCons]
      | cons m ms =>
        simp only [applyCons]
        intro y hy
        rcases List.mem_cons.mp hy with hy1 | hy2
        · subst hy1
          have hm0 := h m (by simp)
          split_ifs <;> omega
        · exact ih ms xs (fun z hz => h z (by simp [hz])) y hy2

/-- With no user width constraints the constraint pass preserves pointwise
`min ≤ max` (the floor only raises maxima). -/
theorem applyCons_pair_pres (tMin tMax : Int) (cs : List Column)
    (htMin : tMin ≤ 0) (htMax : tMax ≤ 0) :
    ∀ (ms xs : List Int), (∀ c ∈ cs, c.MinWidth ≤ 0 ∧ c.MaxWidth ≤ 0) →
    List.Forall₂ (· ≤ ·) ms xs →
    List.Forall₂ (· ≤ ·) (applyCons tMin tMax cs ms xs).1
      (applyCons tMin tMax cs ms xs).2 := by
  induction cs with
  | nil => intro ms xs hcs h; simp only [applyCons]; exact h
  | cons c cs ih =>
    intro ms xs hcs h
    cases h with
    | nil => simp [applyCons]
    | @cons m x ms xs h1 h2 =>
      obtain ⟨hc1, hc2⟩ := hcs c (by simp)
      simp only [applyCons]
      refine List.Forall₂.cons ?_ (ih ms xs (fun z hz => hcs z (by simp [hz])) h2)
      split_ifs <;> omega

theorem forall₂_le_trans {a b c : List Int}
    (h1 : List.Forall₂ (· ≤ ·) a b) (h2 : List.Forall₂ (· ≤ ·) b c) :
    List.Forall₂ (· ≤ ·) a c := by
  induction h1 generalizing c with
  | nil => cases h2; exact List.Forall₂.nil
  | cons hx hrest ih =>
    cases h2 with
    | cons hy hrest2 => exact List.Forall₂.cons (le_trans hx hy) (ih hrest2)

theorem forall₂_bytes_mono {vs : List Str} {b c : List Int}
    (h1 : List.Forall₂ (fun v x => (bytLen v : Int) ≤ x) vs b)
    (h2 : List.Forall₂ (· ≤ ·) b c) :
    List.Forall₂ (fun v x => (bytLen v : Int) ≤ x) vs c := by
  induction h1 generalizing c with
  | nil => cases h2; exact List.Forall₂.nil
  | cons hx hrest ih =>
    cases h2 with
    | cons hy hrest2 => exact List.Forall₂.cons (le_trans hx hy) (ih hrest2)

theorem updMax_mono (vs : List Str) :
    ∀ (ws : List Int), List.Forall₂ (· ≤ ·) ws (updMax ws vs) := by
  induction vs with
  | nil =>
    intro ws
    cases ws <;> simp only [updMax] <;>
      exact List.forall₂_same.mpr fun x _ => le_refl x
  | cons v vs ih =>
    intro ws
    cases ws with
    | nil => simp only [updMax]; exact List.Forall₂.nil
    | cons w ws =>
      simp only [updMax]
      refine List.Forall₂.cons ?_ (ih ws)
      split_ifs <;> omega

theorem foldl_updMax_mono (rows : List (List Str)) :
    ∀ (ws : List Int), List.Forall₂ (· ≤ ·) ws (rows.foldl updMax ws) := by
  induction rows with
  | nil => intro ws; exact List.forall₂_same.mpr fun x _ => le_refl x
  | cons r rest ih =>
    intro ws
    exact forall₂_le_trans (updMax_mono r ws) (ih (updMax ws r))

theorem updMax_ge_bytes (vs : List Str) :
    ∀ (ws : List Int), ws.length = vs.length →
    List.Forall₂ (fun v x => (bytLen v : Int) ≤ x) vs (updMax ws vs) := by
  induction vs with
  | nil =>
    intro ws h
    rw [List.length_nil, List.length_eq_zero] at h
    subst h
    simp only [updMax]
    exact List.Forall₂.nil
  | cons v vs ih =>
    intro ws h
    cases ws with
    | nil => simp at h
    | cons w ws =>
      simp only [List.length_cons] at h
      simp only [updMax]
      refine List.Forall₂.cons ?_ (ih ws (by omega))
      split_ifs <;> omega

theorem foldl_updMax_mem (rows : List (List Str)) :
    ∀ (ws : List Int) (r : List Str), r ∈ rows → r.length = ws.length →
    List.Forall₂ (fun v x => (bytLen v : Int) ≤ x) r (rows.foldl updMax ws) := by
  induction rows with
  | nil => intro ws r h; simp at h
  | cons q rest ih =>
    intro ws r hmem hlen
    rcases List.mem_cons.mp hmem with h1 | h2
    · subst h1
      exact forall₂_bytes_mono (updMax_ge_bytes r ws hlen.symm)
        (foldl_updMax_mono rest (updMax ws r))
    · exact ih (updMax ws q) r h2 (by rw [updMax_length]; exact hlen)

/-- With no user maximum constraints, the constraint pass only raises the
maxima (the floor at 5). -/
theorem applyCons_max_mono (tMin tMax : Int) (cs : List Column) (htMax : tMax ≤ 0) :
    ∀ (ms xs : List Int), (∀ c ∈ cs, c.MaxWidth ≤ 0) →
    List.Forall₂ (· ≤ ·) xs (applyCons tMin tMax cs ms xs).2 := by
  induction cs with
  | nil =>
    intro ms xs hcs
    simp only [applyCons]
    exact List.forall₂_same.mpr fun x _ => le_refl x
  | cons c cs ih =>
    intro ms xs hcs
    cases xs with
    | nil => simp only [applyCons]; exact List.Forall₂.nil
    | cons x xs =>
      cases ms with
      | nil =>
        simp only [applyCons]
        exact List.forall₂_same.mpr fun y _ => le_refl y
      | cons m ms =>
        simp only [applyCons]
        refine List.Forall₂.cons ?_ (ih ms xs fun z hz => hcs z (by simp [hz]))
        have := hcs c (by simp)
        split_ifs <;> omega

-- --------------------------------------------------------------------------
-- Claim C3

/-- Counterexample to C3 as stated: with a global minimum width of 10 and a
2-byte header, width resolution produces `maxWidths = [5]` (the floor) but
`minWidths = [10]`, so `maxWidths[i] ≥ minWidths[i]` fails. -/
theorem C3_counterexample :
    (((New.MinWidth 10).Header [str "ab"]).1.checkWidths.maxWidths = [(5 : Int)]) ∧
    (((New.MinWidth 10).Header [str "ab"]).1.checkWidths.minWidths = [(10 : Int)]) ∧
    ¬((5 : Int) ≥ 10) := by
  refine ⟨by decide, by decide, by decide⟩

/-- C3 (amended): after `checkWidths` every resolved maximum is at least 5 and
every resolved minimum is nonnegative; `maxWidths[i] ≥ minWidths[i]`
additionally holds whenever no user width constraint (global or per-column
minimum/maximum) is set. -/
theorem C3_checkWidths_invariants (t : GoTable)
    (hcols : t.cols.length = t.nColumns)
    (hrows : ∀ r ∈ t.rows, r.length = t.nColumns)
    (hne : t.hasHeader = true ∨ t.rows ≠ []) :
    (∀ x ∈ t.checkWidths.maxWidths, (5 : Int) ≤ x) ∧
    (∀ m ∈ t.checkWidths.minWidths, (0 : Int) ≤ m) ∧
    ((t.minWidth ≤ 0 ∧ t.maxWidth ≤ 0 ∧ ∀ c ∈ t.cols, c.MinWidth ≤ 0 ∧ c.MaxWidth ≤ 0) →
      List.Forall₂ (· ≤ ·) t.checkWidths.minWidths t.checkWidths.maxWidths) := by
  have hmins0 : ∀ m ∈ List.replicate t.nColumns maxInt, (0 : Int) ≤ m := by
    intro m hm
    rw [List.eq_of_mem_replicate hm]
    unfold maxInt
    norm_num
  simp only [GoTable.checkWidths]
  refine ⟨?_, ?_, ?_⟩
  · -- every maximum ≥ 5
    apply applyCons_max_ge5
    · rw [foldl_updMax_length]
      split <;>
        simp [updMax_length, hcols]
    · rw [foldl_updMax_length, foldl_updMin_length]
      split <;> simp [updMax_length, updMin_length]
  · -- every minimum ≥ 0
    apply applyCons_min_nonneg
    apply foldl_updMin_nonneg
    split
    · exact updMin_nonneg _ _ hmins0
    · exact hmins0
  · -- min ≤ max without user constraints
    rintro ⟨h1, h2, h3⟩
    apply applyCons_pair_pres _ _ _ h1 h2 _ _ h3
    cases hH : t.hasHeader with
    | true =>
      simp only [hH, if_pos]
      apply foldl_updPair_pres
      apply updPair_est
      · simp [hcols]
      · simp [hcols]
    | false =>
      simp only [hH, Bool.false_eq_true, if_neg, ite_false]
      rcases hne with hne1 | hne2
      · rw [hH] at hne1; simp at hne1
      · rcases hrs : t.rows with - | ⟨r, rest⟩
        · exact absurd hrs hne2
        · simp only [List.foldl_cons]
          apply foldl_updPair_pres
          apply updPair_est
          · simp
            rw [hrows r (by rw [hrs]; simp)]
          · simp
            rw [hrows r (by rw [hrs]; simp)]

/-- A concrete table: header `"ab"`, one row `"abcd"`, no constraints. -/
def c3wTable : GoTable :=
  { (New.Header [str "ab"]).1 with rows := [[str "abcd"]], dataAdded := true }

/-- Witness for C3 at a concrete table: one header `"ab"`, one row `"abcd"`,
no constraints. -/
theorem C3_checkWidths_invariants_witness :
    (∀ x ∈ c3wTable.checkWidths.maxWidths, (5 : Int) ≤ x) ∧
    (∀ m ∈ c3wTable.checkWidths.minWidths, (0 : Int) ≤ m) ∧
    ((c3wTable.minWidth ≤ 0 ∧ c3wTable.maxWidth ≤ 0 ∧
        ∀ c ∈ c3wTable.cols, c.MinWidth ≤ 0 ∧ c.MaxWidth ≤ 0) →
      List.Forall₂ (· ≤ ·) c3wTable.checkWidths.minWidths
        c3wTable.checkWidths.maxWidths) :=
  C3_checkWidths_invariants c3wTable (by decide) (by decide) (by decide)

-- --------------------------------------------------------------------------
-- Claim C4

/-- Counterexample to C4 as stated: the header `"沈伟"` has display width 4
but byte length 6; width resolution folds 6 into both extremes (display-width
folding would give minimum 4 and maximum 5 after the floor). -/
theorem C4_counterexample :
    (New.Header [str "沈伟"]).1.checkWidths.maxWidths = [(6 : Int)] ∧
    (New.Header [str "沈伟"]).1.checkWidths.minWidths = [(6 : Int)] ∧
    strW (str "沈伟") = 4 ∧ bytLen (str "沈伟") = 6 ∧ (4 : Int) ≠ 6 := by
  refine ⟨by decide, by decide, by decide, by decide, by decide⟩

/-- C4 (amended): `checkWidths` folds the UTF-8 byte length (Go `len`) of
every header and cell into the extremes, not the display width; since the
byte length bounds the display width from above, every entry still fits: when
no maximum constraint clamps the column, each resolved maximum is at least
the byte length — hence at least the display width — of every entry in the
column. -/
theorem C4_widths_fold_byte_length (t : GoTable)
    (hcols : t.cols.length = t.nColumns)
    (hrows : ∀ r ∈ t.rows, r.length = t.nColumns)
    (hnomax : t.maxWidth ≤ 0)
    (hcolmax : ∀ c ∈ t.cols, c.MaxWidth ≤ 0) :
    (∀ r ∈ t.rows,
      List.Forall₂ (fun cell M => (bytLen cell : Int) ≤ M ∧ (strW cell : Int) ≤ M)
        r t.checkWidths.maxWidths) ∧
    (t.hasHeader = true →
      List.Forall₂ (fun hd M => (bytLen hd : Int) ≤ M ∧ (strW hd : Int) ≤ M)
        (t.cols.map Column.Header) t.checkWidths.maxWidths) := by
  have himp : ∀ (vs : List Str) (b : List Int),
      List.Forall₂ (fun v x => (bytLen v : Int) ≤ x) vs b →
      List.Forall₂ (fun v x => (bytLen v : Int) ≤ x ∧ (strW v : Int) ≤ x) vs b := by
    intro vs b h
    refine h.imp fun {a x} hax => ⟨hax, ?_⟩
    have := strW_le_bytLen a
    omega
  simp only [GoTable.checkWidths]
  constructor
  · intro r hr
    apply himp
    apply forall₂_bytes_mono ?_ (applyCons_max_mono _ _ _ hnomax _ _ hcolmax)
    apply foldl_updMax_mem _ _ r hr
    split <;> simp [updMax_length, hcols, hrows r hr]
  · intro hH
    apply himp
    apply forall₂_bytes_mono ?_ (applyCons_max_mono _ _ _ hnomax _ _ hcolmax)
    apply forall₂_bytes_mono ?_ (foldl_updMax_mono _ _)
    rw [hH]
    simp only [if_pos]
    apply updMax_ge_bytes
    simp [hcols]

/-- A concrete table: CJK header, one short row. -/
def c4wTable : GoTable :=
  { (New.Header [str "沈伟"]).1 with rows := [[str "x"]], dataAdded := true }

/-- Witness for C4 at a concrete table with a CJK header and one row. -/
theorem C4_widths_fold_byte_length_witness :
    (∀ r ∈ c4wTable.rows,
      List.Forall₂ (fun cell M => (bytLen cell : Int) ≤ M ∧ (strW cell : Int) ≤ M)
        r c4wTable.checkWidths.maxWidths) ∧
    (c4wTable.hasHeader = true →
      List.Forall₂ (fun hd M => (bytLen hd : Int) ≤ M ∧ (strW hd : Int) ≤ M)
        (c4wTable.cols.map Column.Header) c4wTable.checkWidths.maxWidths) :=
  C4_widths_fold_byte_length c4wTable (by decide) (by decide) (by decide) (by decide)

-- --------------------------------------------------------------------------
-- Claim C5: wrapped and clipped lines fit the column width

/-- The wrap-loop invariant: emitted lines fit; the working line's display
width fits; a recorded delimiter is a nonempty in-bounds prefix recorded
while the byte length was still below the width; `lpPos` tracks the working
line's length. -/
def WrapInv (maxWidth : Int) (st : WrapSt) : Prop :=
  (∀ l ∈ st.acc, (strW l : Int) ≤ maxWidth) ∧
  (strW st.wl : Int) ≤ maxWidth ∧
  (st.spSize > 0 → 1 ≤ st.spPos ∧ st.spPos ≤ st.wl.length ∧
    (bytLen st.wl : Int) < maxWidth) ∧
  st.lpPos = st.wl.length

/-- Display width of the remainder after a delimiter split: the kept prefix
holds at least one byte and the line was below the width before the current
rune, so the remainder fits. -/
theorem remainder_space_fits (wl : Str) (r : Char) (p : Nat) (maxWidth : Int)
    (hp1 : 1 ≤ p) (hp2 : p ≤ wl.length) (hblt : (bytLen wl : Int) < maxWidth) :
    (strW ((wl ++ [r]).drop p) : Int) ≤ maxWidth := by
  rw [List.drop_append_of_le_length hp2, strW_append]
  have h1 := strW_le_bytLen (wl.drop p)
  have h2 := bytLen_take_add_drop p wl
  have h3 := bytLen_take_pos p wl hp1 hp2
  have h4 := runeW_le_two r
  have h5 : strW [r] = runeW r := by simp [strW]
  rw [h5]
  push_cast
  omega

theorem wrapStep_inv (delim : Char) (maxWidth : Int) (h2 : 2 ≤ maxWidth)
    (st st' : WrapSt) (r : Char) (hinv : WrapInv maxWidth st)
    (hstep : wrapStep delim maxWidth st r = some st') : WrapInv maxWidth st' := by
  obtain ⟨hacc, hwl, hsp, hlp⟩ := hinv
  simp only [wrapStep] at hstep
  by_cases hdelim : r = delim
  · -- r is the delimiter: the recorded position covers the whole line
    rw [if_pos hdelim] at hstep
    have hcuteq : wrapCut (st.wl ++ [r]) ((st.wl ++ [r]).length, rlen r)
        st.lpPos maxWidth = (st.wl ++ [r], []) := by
      unfold wrapCut
      dsimp only
      split_ifs with hc1 hc2 <;>
        first
          | rw [List.take_length, List.drop_length]
          | (exfalso; exact hc1 (rlen_pos r))
    rw [hcuteq] at hstep
    dsimp only at hstep
    split at hstep
    · split at hstep
      · exact Option.noConfusion hstep
      · rename_i hfit
        push_neg at hfit
        rw [Option.some_inj] at hstep
        subst hstep
        refine ⟨?_, ?_, ?_, rfl⟩
        · intro l hl
          rcases List.mem_append.mp hl with h1 | h1
          · exact hacc l h1
          · rw [List.mem_singleton] at h1
            subst h1
            have := strW_le_bytLen (st.wl ++ [r])
            omega
        · show (strW ([] : Str) : Int) ≤ maxWidth
          simp only [strW]
          omega
        · intro hss
          simp at hss
    · rename_i hge
      push_neg at hge
      rw [Option.some_inj] at hstep
      subst hstep
      have := strW_le_bytLen (st.wl ++ [r])
      refine ⟨hacc, ?_, ?_, rfl⟩
      · show (strW (st.wl ++ [r]) : Int) ≤ maxWidth
        omega
      · intro hss
        refine ⟨?_, le_refl _, hge⟩
        show 1 ≤ (st.wl ++ [r]).length
        simp
  · -- r is not the delimiter: the recorded position is the inherited one
    rw [if_neg hdelim] at hstep
    dsimp only at hstep
    split at hstep
    · split at hstep
      · exact Option.noConfusion hstep
      · rename_i hfit
        push_neg at hfit
        rw [Option.some_inj] at hstep
        subst hstep
        refine ⟨?_, ?_, by intro hss; simp at hss, rfl⟩
        · intro l hl
          rcases List.mem_append.mp hl with h1 | h1
          · exact hacc l h1
          · rw [List.mem_singleton] at h1
            subst h1
            have := strW_le_bytLen
              (wrapCut (st.wl ++ [r]) (st.spPos, st.spSize) st.lpPos maxWidth).1
            omega
        · show (strW (wrapCut (st.wl ++ [r]) (st.spPos, st.spSize)
            st.lpPos maxWidth).2 : Int) ≤ maxWidth
          by_cases hss : st.spSize > 0
          · obtain ⟨hp1, hp2, hblt⟩ := hsp hss
            have hcuteq : wrapCut (st.wl ++ [r]) (st.spPos, st.spSize)
                st.lpPos maxWidth =
                ((st.wl ++ [r]).take st.spPos, (st.wl ++ [r]).drop st.spPos) := by
              unfold wrapCut
              dsimp only
              rw [if_pos hss]
            rw [hcuteq]
            exact remainder_space_fits st.wl r st.spPos maxWidth hp1 hp2 hblt
          · by_cases hgt : (bytLen (st.wl ++ [r]) : Int) > maxWidth
            · have hcuteq : wrapCut (st.wl ++ [r]) (st.spPos, st.spSize)
                  st.lpPos maxWidth =
                  ((st.wl ++ [r]).take st.lpPos, (st.wl ++ [r]).drop st.lpPos) := by
                unfold wrapCut
                dsimp only
                rw [if_neg hss, if_pos hgt]
              rw [hcuteq, hlp]
              dsimp only
              rw [List.drop_left]
              have := runeW_le_two r
              have h5 : strW [r] = runeW r := by simp [strW]
              rw [h5]
              omega
            · have hcuteq : wrapCut (st.wl ++ [r]) (st.spPos, st.spSize)
                  st.lpPos maxWidth = (st.wl ++ [r], []) := by
                unfold wrapCut
                dsimp only
                rw [if_neg hss, if_neg hgt]
              rw [hcuteq]
              show (strW ([] : Str) : Int) ≤ maxWidth
              simp only [strW]
              omega
    · rename_i hge
      push_neg at hge
      rw [Option.some_inj] at hstep
      subst hstep
      have hble := strW_le_bytLen (st.wl ++ [r])
      refine ⟨hacc, ?_, ?_, rfl⟩
      · show (strW (st.wl ++ [r]) : Int) ≤ maxWidth
        omega
      · intro hss
        obtain ⟨hp1, hp2, -⟩ := hsp hss
        refine ⟨hp1, ?_, hge⟩
        show st.spPos ≤ (st.wl ++ [r]).length
        rw [List.length_append]
        simp only [List.length_singleton]
        omega

theorem foldlM_wrapStep_inv (delim : Char) (maxWidth : Int) (h2 : 2 ≤ maxWidth) :
    ∀ (cs : List Char) (st st' : WrapSt), WrapInv maxWidth st →
    List.foldlM (wrapStep delim maxWidth) st cs = some st' →
    WrapInv maxWidth st' := by
  intro cs
  induction cs with
  | nil =>
    intro st st' h hf
    simp only [List.foldlM_nil, pure, Option.some_inj] at hf
    subst hf
    exact h
  | cons c cs ih =>
    intro st st' h hf
    rw [List.foldlM_cons] at hf
    cases hstep : wrapStep delim maxWidth st c with
    | none =>
      rw [hstep] at hf
      exact Option.noConfusion hf
    | some st1 =>
      rw [hstep] at hf
      simp only [Option.bind_eq_bind, Option.some_bind] at hf
      exact ih st1 st' (wrapStep_inv delim maxWidth h2 st st1 c h hstep) hf

/-- Every line produced by the byte-greedy wrap loop has display width at
most the column width (width at least 2). -/
theorem wrapCell_fits (delim : Char) (maxWidth : Int) (h2 : 2 ≤ maxWidth)
    (cell : Str) (lines : List Str)
    (h : wrapCell delim maxWidth cell = some lines) :
    ∀ l ∈ lines, (strW l : Int) ≤ maxWidth := by
  unfold wrapCell at h
  obtain ⟨st, hfold, hline⟩ := Option.map_eq_some'.mp h
  subst hline
  have hinv0 : WrapInv maxWidth ({} : WrapSt) := by
    refine ⟨by simp [WrapSt], ?_, by simp [WrapSt], by simp [WrapSt]⟩
    show (strW ([] : Str) : Int) ≤ maxWidth
    simp only [strW]
    omega
  have hinv := foldlM_wrapStep_inv delim maxWidth h2 cell {} st hinv0 hfold
  obtain ⟨hacc, hwl, -, -⟩ := hinv
  intro l hl
  rcases List.mem_append.mp hl with h1 | h1
  · exact hacc l h1
  · split at h1
    · simp at h1
    · rw [List.mem_singleton] at h1
      subst h1
      exact hwl

/-- The prefix kept by `runewidth.Truncate` keeps the accumulated width
within the budget. -/
theorem truncPrefix_width (w : Int) :
    ∀ (s : Str) (acc : Int), acc ≤ w →
    acc + (strW (truncPrefix w acc s) : Int) ≤ w := by
  intro s
  induction s with
  | nil => intro acc h; simp [truncPrefix, strW]; omega
  | cons c cs ih =>
    intro acc h
    simp only [truncPrefix]
    split_ifs with hc
    · simp [strW]; omega
    · push_neg at hc
      have := ih (acc + (runeW c : Int)) hc
      simp only [strW]
      push_cast
      omega

/-- `runewidth.Truncate` output has display width at most `w` whenever the
tail itself fits. -/
theorem truncate_width (s : Str) (w : Int) (tail : Str)
    (htail : (strW tail : Int) ≤ w) :
    (strW (truncate s w tail) : Int) ≤ w := by
  unfold truncate
  split_ifs with h
  · exact h
  · rw [strW_append]
    have := truncPrefix_width (w - (strW tail : Int)) s 0 (by omega)
    push_cast
    omega

/-- Every display line the per-cell formatter emits fits the effective
column width (the resolved maximum raised to the global minimum), given the
post-resolution floor of 5. -/
theorem formatCellLines_width (clip : Bool) (delim : Char) (minW : Int)
    (mark cell : Str) (colMax : Int) (lines : List Str) (mark1 : Str)
    (h5 : (5 : Int) ≤ (if colMax < minW then minW else colMax))
    (h : formatCellLines clip delim minW mark cell colMax = some (lines, mark1)) :
    ∀ l ∈ lines, (strW l : Int) ≤ (if colMax < minW then minW else colMax) := by
  simp only [formatCellLines] at h
  generalize hW : (if colMax < minW then minW else colMax) = W at h h5 ⊢
  split at h
  · rename_i hfit
    rw [Option.some_inj, Prod.mk.injEq] at h
    obtain ⟨h1, -⟩ := h
    subst h1
    intro l hl
    rw [List.mem_singleton] at hl
    rw [hl]
    have := strW_le_bytLen cell
    omega
  · split at h
    · rw [Option.some_inj, Prod.mk.injEq] at h
      obtain ⟨h1, h2⟩ := h
      subst h1
      intro l hl
      rw [List.mem_singleton] at hl
      rw [hl]
      apply truncate_width
      split_ifs with hm
      · show (strW ([] : Str) : Int) ≤ W
        simp only [strW]
        omega
      · push_neg at hm
        have := strW_le_bytLen mark
        omega
    · obtain ⟨ls, hw, hls⟩ := Option.map_eq_some'.mp h
      rw [Prod.mk.injEq] at hls
      obtain ⟨h1, -⟩ := hls
      subst h1
      exact wrapCell_fits delim W (by omega) cell ls hw

/-- C5: every display line produced by wrapping or clipping the cells of a
row (the entries `formatRow`'s cell loop appends) has display width at most
the owning column's effective width, provided each effective width carries
the post-resolution floor of 5. -/
theorem C5_formatted_lines_fit_width (clip : Bool) (delim : Char) (minW : Int) :
    ∀ (pairs : List (Str × Int)) (mark : Str) (rot : List (List Str)) (mark1 : Str),
    (∀ p ∈ pairs, (5 : Int) ≤ (if p.2 < minW then minW else p.2)) →
    goCells clip delim minW mark pairs = some (rot, mark1) →
    List.Forall₂ (fun ls (p : Str × Int) =>
      ∀ l ∈ ls, (strW l : Int) ≤ (if p.2 < minW then minW else p.2)) rot pairs := by
  intro pairs
  induction pairs with
  | nil =>
    intro mark rot mark1 h5 h
    simp only [goCells, Option.some_inj, Prod.mk.injEq] at h
    obtain ⟨h1, -⟩ := h
    subst h1
    exact List.Forall₂.nil
  | cons p rest ih =>
    intro mark rot mark1 h5 h
    obtain ⟨cell, colMax⟩ := p
    simp only [goCells] at h
    split at h
    · exact Option.noConfusion h
    · rename_i ls mk hcell
      obtain ⟨q, hrest, hq⟩ := Option.map_eq_some'.mp h
      rw [Prod.mk.injEq] at hq
      obtain ⟨h1, -⟩ := hq
      subst h1
      refine List.Forall₂.cons ?_ (ih mk q.1 q.2 (fun z hz => h5 z (by simp [hz])) ?_)
      · exact formatCellLines_width clip delim minW mark cell colMax ls mk
          (h5 (cell, colMax) (by simp)) hcell
      · exact hrest

/-- Witness for C5 at a concrete wrapped cell: `"hello world"` at width 5. -/
theorem C5_formatted_lines_fit_width_witness :
    ((5 : Int) ≤ (if (5 : Int) < 0 then 0 else 5)) ∧
    ∃ rot mark1, goCells false ' ' 0 [] [(str "hello world", 5)] = some (rot, mark1) ∧
      List.Forall₂ (fun ls (p : Str × Int) =>
        ∀ l ∈ ls, (strW l : Int) ≤ (if p.2 < 0 then 0 else p.2))
        rot [(str "hello world", 5)] := by
  refine ⟨by decide, ?_⟩
  cases hg : goCells false ' ' 0 [] [(str "hello world", 5)] with
  | none => exact absurd hg (by decide)
  | some q =>
    obtain ⟨rot, mark1⟩ := q
    refine ⟨rot, mark1, rfl, ?_⟩
    exact C5_formatted_lines_fit_width false ' ' 0 [(str "hello world", 5)] [] rot mark1
      (by decide) hg

-- --------------------------------------------------------------------------
-- Claim C2

/-- `checkRow` with a header and a matching length is the identity. -/
theorem checkRow_ok_id (t : GoTable) (row : List Str)
    (hh : t.hasHeader = true) (hl : row.length = t.nColumns) :
    t.checkRow row = (t, .ok row) := by
  unfold GoTable.checkRow
  rw [hh]
  simp [hl]

/-- The table state at the moment of the threshold dump: widths resolved from
the buffered rows only, the triggering row already appended. -/
def dumpState (t : GoTable) (row : List Str) : GoTable :=
  { t.checkWidths with rows := t.checkWidths.rows ++ [row], dataAdded := true }

/-- C2 (amended): with a writer attached and buffering threshold k,
(a) every `AddRow` while the buffer holds fewer than k rows — including the
call that brings the count to exactly k — only buffers: it writes nothing
and does not resolve widths;
(b) the next call (the (k+1)-th row) triggers the one-time dump: widths are
resolved from the k buffered rows only, the new row is appended, and one pass
writes the top rule, the header block and all k+1 rows, transitioning to the
streaming state;
(c) in the streaming state each row is formatted against the already-resolved
widths and written immediately, without being buffered. -/
theorem C2_threshold_trigger (t : GoTable) (row : List Str)
    (hw : t.hasWriter = true) (hfl : t.flushed = false)
    (hh : t.hasHeader = true) (hl : row.length = t.nColumns) :
    (t.bufRowsDumped = false → t.rows.length < t.bufRows →
      ∀ t' out, t.AddRow row = .ok t' out →
        out = [] ∧ t'.rows = t.rows ++ [row] ∧
        t'.widthsChecked = t.widthsChecked ∧ t'.minWidths = t.minWidths ∧
        t'.maxWidths = t.maxWidths ∧ t'.bufRowsDumped = false) ∧
    (t.bufRowsDumped = false → t.rows.length = t.bufRows →
      ∀ t' out, t.AddRow row = .ok t' out →
        t'.bufRowsDumped = true ∧ t'.rows = t.rows ++ [row] ∧
        t'.minWidths = t.checkWidths.minWidths ∧
        t'.maxWidths = t.checkWidths.maxWidths ∧ t'.widthsChecked = true ∧
        ∃ tH hs tR rs,
          headerBlock (t.style.getD StyleGrid)
            (bytLen (t.style.getD StyleGrid).Padding * 2) (dumpState t row) =
            some (tH, hs) ∧
          rowsLoop (t.style.getD StyleGrid)
            (bytLen (t.style.getD StyleGrid).Padding * 2) tH true
            (t.rows ++ [row]) = some (tR, rs) ∧
          out = (if (t.style.getD StyleGrid).LineTop.Visible then
              lineBlock (t.style.getD StyleGrid).LineTop
                (bytLen (t.style.getD StyleGrid).Padding * 2)
                t.checkWidths.minWidths t.checkWidths.maxWidths
            else []) ++ hs ++ rs) ∧
    (t.bufRowsDumped = true → t.bufRows ≤ t.rows.length →
      ∀ t' out, t.AddRow row = .ok t' out →
        t'.rows = t.rows ∧ t'.minWidths = t.minWidths ∧
        t'.maxWidths = t.maxWidths ∧ t'.widthsChecked = t.widthsChecked ∧
        ∃ s, writeRow (t.style.getD StyleGrid).DataRow
            (t.style.getD StyleGrid).Padding t row = some (t', s) ∧
          out = (if (t.style.getD StyleGrid).LineBetweenRows.Visible then
              lineBlock (t.style.getD StyleGrid).LineBetweenRows
                (bytLen (t.style.getD StyleGrid).Padding * 2)
                t.minWidths t.maxWidths
            else []) ++ s) := by
  have hkeep := checkWidths_keeps t
  refine ⟨?_, ?_, ?_⟩
  · -- (a) buffering, including the k-th row
    intro hbd hlt t' out heq
    unfold GoTable.AddRow at heq
    rw [if_neg (by simp [hfl]), if_pos (Or.inr hlt)] at heq
    unfold addRowBuffer at heq
    rw [checkRow_ok_id t row hh hl] at heq
    dsimp only at heq
    simp only [AddRes.ok.injEq] at heq
    obtain ⟨h1, h2⟩ := heq
    subst h1
    subst h2
    exact ⟨rfl, rfl, rfl, rfl, rfl, hbd⟩
  · -- (b) the (k+1)-th row triggers the dump
    intro hbd hk t' out heq
    unfold GoTable.AddRow at heq
    rw [if_neg (by simp [hfl]), if_neg (by rw [hw]; simp; omega),
      if_neg (by simp [hbd]), if_pos hk] at heq
    simp only [addRowDump] at heq
    rw [checkRow_ok_id t.checkWidths row (by rw [hkeep.2.2.2.2.1]; exact hh)
      (by rw [hkeep.2.2.1]; exact hl)] at heq
    dsimp only at heq
    split at heq
    · exact AddRes.noConfusion heq
    · rename_i t3 hs hHB
      split at heq
      · exact AddRes.noConfusion heq
      · rename_i tR rs hRL
        simp only [AddRes.ok.injEq] at heq
        obtain ⟨h1, h2⟩ := heq
        subst h1
        subst h2
        have hc3 : coreEq t3 (dumpState t row) :=
          headerBlock_coreEq _ _ _ t3 hs hHB
        have hcR : coreEq tR t3 := rowsLoop_coreEq _ _ _ t3 tR true rs hRL
        have hcomp := coreEq_trans hcR hc3
        obtain ⟨hr3, -, -, -, -, hm3, hx3, hwc3, -⟩ := hcomp
        have hrowsEq : (dumpState t row).rows = t.rows ++ [row] := by
          show t.checkWidths.rows ++ [row] = t.rows ++ [row]
          rw [hkeep.1]
        refine ⟨rfl, ?_, ?_, ?_, ?_, t3, hs, tR, rs, hHB, ?_, rfl⟩
        · show tR.rows = t.rows ++ [row]
          rw [hr3, hrowsEq]
        · show tR.minWidths = t.checkWidths.minWidths
          rw [hm3]
          rfl
        · show tR.maxWidths = t.checkWidths.maxWidths
          rw [hx3]
          rfl
        · show tR.widthsChecked = true
          rw [hwc3]
          rfl
        · have ht3rows : t3.rows = t.rows ++ [row] := by
            rw [hc3.1, hrowsEq]
          rw [← ht3rows]
          exact hRL
  · -- (c) streaming: immediate write against the resolved widths
    intro hbd hge t' out heq
    unfold GoTable.AddRow at heq
    rw [if_neg (by simp [hfl]), if_neg (by rw [hw]; simp; omega),
      if_pos hbd] at heq
    simp only [addRowStream] at heq
    rw [checkRow_ok_id t row hh hl] at heq
    dsimp only at heq
    split at heq
    · exact AddRes.noConfusion heq
    · rename_i t2 s hwr
      simp only [AddRes.ok.injEq] at heq
      obtain ⟨h1, h2⟩ := heq
      subst h1
      subst h2
      have hc := writeRow_coreEq _ _ t t2 row s hwr
      obtain ⟨hr, -, -, -, -, hm1, hm2, hwc, -⟩ := hc
      exact ⟨hr, hm1, hm2, hwc, s, hwr, rfl⟩

/-- Fresh writer-attached table with threshold 1 and a one-column header. -/
def c2Buf : GoTable := ((New.Header [str "ab"]).1.Writer 1).1

/-- Counterexample to the claim as stated: with threshold k = 1, the `AddRow`
call that brings the buffered row count to exactly k = 1 writes nothing and
resolves no widths — even though the grid top rule it is claimed to emit is
visible — because the dump only happens on the next call. -/
theorem C2_counterexample :
    (c2Buf.AddRow [str "xy"]).okOut = some [] ∧
    ((c2Buf.AddRow [str "xy"]).okTab.map GoTable.widthsChecked) = some false ∧
    ((c2Buf.AddRow [str "xy"]).okTab.map GoTable.bufRowsDumped) = some false ∧
    StyleGrid.LineTop.Visible = true := by
  decide

/-- Writer-attached table sitting at the threshold: one buffered row with
`bufRows = 1`. -/
def c2Th : GoTable :=
  { ((New.Header [str "ab"]).1.Writer 1).1 with rows := [[str "cd"]], dataAdded := true }

set_option maxRecDepth 16000 in
/-- Witness for C2 at a concrete input: the table at the threshold dumps on
the next `AddRow`. -/
theorem C2_threshold_trigger_witness :
    c2Th.hasWriter = true ∧ c2Th.flushed = false ∧ c2Th.hasHeader = true ∧
    [str "ef"].length = c2Th.nColumns ∧ c2Th.bufRowsDumped = false ∧
    c2Th.rows.length = c2Th.bufRows ∧
    ∃ t' out, c2Th.AddRow [str "ef"] = .ok t' out ∧
      t'.bufRowsDumped = true ∧ t'.rows = c2Th.rows ++ [[str "ef"]] ∧
      t'.widthsChecked = true := by
  refine ⟨by decide, by decide, by decide, by decide, by decide, by decide, ?_⟩
  have h := (C2_threshold_trigger c2Th [str "ef"] (by decide) (by decide)
    (by decide) (by decide)).2.1 (by decide) (by decide)
  have hsome : (c2Th.AddRow [str "ef"]).okTab.isSome = true := by decide
  cases heq : c2Th.AddRow [str "ef"] with
  | err t1 e =>
    rw [heq] at hsome
    exact absurd hsome (by simp [AddRes.okTab])
  | panicked =>
    rw [heq] at hsome
    exact absurd hsome (by simp [AddRes.okTab])
  | ok t1 out =>
    obtain ⟨hb, hr, -, -, hwc, -⟩ := h t1 out heq
    exact ⟨t1, out, rfl, hb, hr, hwc⟩

-- --------------------------------------------------------------------------
-- Claim C1: the rendering pipeline ignores the writer bookkeeping fields

/-- Overwrite the writer bookkeeping fields; every width/format decision of
the pipeline is independent of them. -/
def setW (B : Nat) (fl : Bool) (t : GoTable) : GoTable :=
  { t with hasWriter := true, bufRows := B, flushed := fl }

theorem checkRow_setW (B : Nat) (fl : Bool) (t : GoTable) (row : List Str) :
    (setW B fl t).checkRow row = (setW B fl (t.checkRow row).1, (t.checkRow row).2) := by
  unfold GoTable.checkRow
  dsimp only [setW]
  split_ifs <;> (try split) <;> (try split_ifs) <;> rfl

theorem checkWidths_setW (B : Nat) (fl : Bool) (t : GoTable) :
    (setW B fl t).checkWidths = setW B fl t.checkWidths := rfl

theorem formatRow_setW (B : Nat) (fl : Bool) (t : GoTable) (row : List Str) :
    (setW B fl t).formatRow row =
      (t.formatRow row).map fun p => (setW B fl p.1, p.2) := by
  unfold GoTable.formatRow
  dsimp only [setW]
  by_cases hd : t.wrapDelimiter = Char.ofNat 0
  · rw [if_pos hd, if_pos hd]
    dsimp only
    split_ifs <;> (try rfl) <;> (split <;> rfl)
  · rw [if_neg hd, if_neg hd]
    dsimp only
    split_ifs <;> (try rfl) <;> (split <;> rfl)

theorem writeRow_setW (B : Nat) (fl : Bool) (rs : RowStyle) (pad : Str)
    (t : GoTable) (row : List Str) :
    writeRow rs pad (setW B fl t) row =
      (writeRow rs pad t row).map fun p => (setW B fl p.1, p.2) := by
  unfold writeRow
  rw [formatRow_setW]
  cases hf : t.formatRow row with
  | none => rfl
  | some p =>
    obtain ⟨t1, wrapped, wr⟩ := p
    dsimp only [Option.map, setW, GoTable.cols]
    cases wrapped
    · rw [if_neg Bool.false_ne_true, if_neg Bool.false_ne_true]
      split <;> rfl
    · rw [if_pos rfl, if_pos rfl]
      split <;> rfl

theorem rowsLoop_setW (B : Nat) (fl : Bool) (style : TableStyle) (pad2 : Nat)
    (rows : List (List Str)) :
    ∀ (t : GoTable) (first : Bool),
      rowsLoop style pad2 (setW B fl t) first rows =
        (rowsLoop style pad2 t first rows).map fun p => (setW B fl p.1, p.2) := by
  induction rows with
  | nil => intro t first; rfl
  | cons r rest ih =>
    intro t first
    simp only [rowsLoop]
    rw [writeRow_setW]
    cases hw : writeRow style.DataRow style.Padding t r with
    | none => rfl
    | some p =>
      obtain ⟨t1, s⟩ := p
      dsimp only [Option.map]
      rw [ih t1 false]
      cases hrest : rowsLoop style pad2 t1 false rest with
      | none => rfl
      | some q =>
        obtain ⟨t2, s2⟩ := q
        dsimp only [Option.map, setW]

theorem setW_hasHeader (B : Nat) (fl : Bool) (t : GoTable) :
    (setW B fl t).hasHeader = t.hasHeader := rfl

theorem setW_cols (B : Nat) (fl : Bool) (t : GoTable) :
    (setW B fl t).cols = t.cols := rfl

theorem setW_minWidths (B : Nat) (fl : Bool) (t : GoTable) :
    (setW B fl t).minWidths = t.minWidths := rfl

theorem setW_maxWidths (B : Nat) (fl : Bool) (t : GoTable) :
    (setW B fl t).maxWidths = t.maxWidths := rfl

theorem headerBlock_setW (B : Nat) (fl : Bool) (style : TableStyle) (pad2 : Nat)
    (t : GoTable) :
    headerBlock style pad2 (setW B fl t) =
      (headerBlock style pad2 t).map fun p => (setW B fl p.1, p.2) := by
  unfold headerBlock
  simp only [setW_hasHeader, setW_cols]
  by_cases hh : t.hasHeader = true
  · rw [if_pos hh, if_pos hh, writeRow_setW]
    cases hw : writeRow style.HeaderRow style.Padding t (t.cols.map (·.Header)) with
    | none => rfl
    | some p =>
      obtain ⟨t1, s⟩ := p
      dsimp only [Option.map]
      simp only [setW_minWidths, setW_maxWidths]
  · rw [if_neg hh, if_neg hh]
    rfl

theorem renderWith_setW (B : Nat) (fl : Bool) (t : GoTable) (style : TableStyle) :
    renderWith (setW B fl t) style =
      (setW B fl (renderWith t style).1, (renderWith t style).2) := by
  unfold renderWith
  rw [checkWidths_setW]
  dsimp only
  rw [headerBlock_setW]
  cases hh : headerBlock style (bytLen style.Padding * 2) t.checkWidths with
  | none => rfl
  | some p =>
    obtain ⟨t1, hs⟩ := p
    dsimp only [Option.map]
    rw [show (setW B fl t1).rows = t1.rows from rfl, rowsLoop_setW]
    cases hr : rowsLoop style (bytLen style.Padding * 2) t1 true t1.rows with
    | none => rfl
    | some q =>
      obtain ⟨t2, rs⟩ := q
      dsimp only [Option.map]
      simp only [setW_minWidths, setW_maxWidths]

/-- Transport a table transformer over an `AddRow` result. -/
def AddRes.mapTab (f : GoTable → GoTable) : AddRes → AddRes
  | .err t e => .err (f t) e
  | .panicked => .panicked
  | .ok t out => .ok (f t) out

theorem addRowBuffer_setW (B : Nat) (t : GoTable) (row : List Str) :
    addRowBuffer (setW B false t) row = (addRowBuffer t row).mapTab (setW B false) := by
  unfold addRowBuffer
  rw [checkRow_setW]
  rcases hc : t.checkRow row with ⟨t1, res⟩
  cases res <;> rfl

theorem addRow_nonwriter (t : GoTable) (row : List Str) (hw : t.hasWriter = false) :
    t.AddRow row = addRowBuffer t row := by
  unfold GoTable.AddRow
  rw [if_neg (by simp [hw]), if_pos (Or.inl hw)]

theorem addRow_writer_buffer (t : GoTable) (row : List Str) (B : Nat)
    (hfl : t.flushed = false) (hlt : t.rows.length < B) :
    (setW B false t).AddRow row = addRowBuffer (setW B false t) row := by
  unfold GoTable.AddRow
  dsimp only [setW]
  rw [if_neg (by simp), if_pos (Or.inr hlt)]

/-- A buffering `AddRow` writes nothing, never panics, keeps the writer
bookkeeping fields, and grows the buffer by at most one row. -/
theorem addRowBuffer_state (t : GoTable) (row : List Str) :
    (∀ t1 e, addRowBuffer t row = .err t1 e →
      t1.hasWriter = t.hasWriter ∧ t1.flushed = t.flushed ∧
      t1.bufRowsDumped = t.bufRowsDumped ∧ t1.rows = t.rows) ∧
    (∀ t1 out, addRowBuffer t row = .ok t1 out →
      out = [] ∧ t1.hasWriter = t.hasWriter ∧ t1.flushed = t.flushed ∧
      t1.bufRowsDumped = t.bufRowsDumped ∧ t1.rows.length = t.rows.length + 1) ∧
    addRowBuffer t row ≠ .panicked := by
  have hk := checkRow_keeps t row
  unfold addRowBuffer
  rcases hc : t.checkRow row with ⟨tc, res⟩
  rw [hc] at hk
  obtain ⟨hr, -, -, -, hbd, -, -, hhw, -, hfl2, -⟩ := hk
  cases res with
  | error e =>
    refine ⟨?_, ?_, ?_⟩
    · intro t1 e1 h
      simp only [AddRes.err.injEq] at h
      obtain ⟨h1, -⟩ := h
      subst h1
      exact ⟨hhw, hfl2, hbd, hr⟩
    · intro t1 out h
      exact AddRes.noConfusion h
    · intro h
      exact AddRes.noConfusion h
  | ok r =>
    refine ⟨?_, ?_, ?_⟩
    · intro t1 e1 h
      exact AddRes.noConfusion h
    · intro t1 out h
      simp only [AddRes.ok.injEq] at h
      obtain ⟨h1, h2⟩ := h
      subst h1
      subst h2
      refine ⟨rfl, hhw, hfl2, hbd, ?_⟩
      show (tc.rows ++ [r]).length = t.rows.length + 1
      rw [List.length_append, hr]
      rfl
    · intro h
      exact AddRes.noConfusion h

/-- Without a writer (or while buffering) every successful `AddRow` writes
nothing; errors change nothing relevant. -/
theorem runAdds_nonwriter (rows : List (List Str)) :
    ∀ t : GoTable, t.hasWriter = false →
      ∃ tn, runAdds t rows = some (tn, []) ∧ tn.hasWriter = false ∧
        tn.flushed = t.flushed ∧ tn.bufRowsDumped = t.bufRowsDumped := by
  induction rows with
  | nil => intro t hw; exact ⟨t, rfl, hw, rfl, rfl⟩
  | cons r rest ih =>
    intro t hw
    obtain ⟨hErr, hOk, hPan⟩ := addRowBuffer_state t r
    simp only [runAdds]
    rw [addRow_nonwriter t r hw]
    cases ha : addRowBuffer t r with
    | err t1 e =>
      obtain ⟨hhw, hfl1, hbd1, -⟩ := hErr t1 e ha
      obtain ⟨tn, hrun, h1, h2, h3⟩ := ih t1 (hhw.trans hw)
      exact ⟨tn, hrun, h1, h2.trans hfl1, h3.trans hbd1⟩
    | ok t1 out =>
      obtain ⟨hout, hhw, hfl1, hbd1, -⟩ := hOk t1 out ha
      obtain ⟨tn, hrun, h1, h2, h3⟩ := ih t1 (hhw.trans hw)
      refine ⟨tn, ?_, h1, h2.trans hfl1, h3.trans hbd1⟩
      dsimp only
      rw [hrun, hout]
      rfl
    | panicked => exact absurd ha hPan

/-- Lockstep: while the threshold is never reached, the streaming run is the
buffering run with the writer bookkeeping fields overwritten. -/
theorem runAdds_setW (B : Nat) (rows : List (List Str)) :
    ∀ t : GoTable, t.hasWriter = false → t.flushed = false →
      t.rows.length + rows.length ≤ B →
      runAdds (setW B false t) rows =
        (runAdds t rows).map fun p => (setW B false p.1, p.2) := by
  induction rows with
  | nil => intro t hw hfl hB; rfl
  | cons r rest ih =>
    intro t hw hfl hB
    simp only [List.length_cons] at hB
    have hlt : t.rows.length < B := by omega
    obtain ⟨hErr, hOk, hPan⟩ := addRowBuffer_state t r
    simp only [runAdds]
    rw [addRow_writer_buffer t r B hfl hlt, addRowBuffer_setW, addRow_nonwriter t r hw]
    cases ha : addRowBuffer t r with
    | err t1 e =>
      dsimp only [AddRes.mapTab]
      obtain ⟨hhw, hfl1, hbd1, hrows⟩ := hErr t1 e ha
      exact ih t1 (hhw.trans hw) (hfl1.trans hfl) (by rw [hrows]; omega)
    | ok t1 out =>
      dsimp only [AddRes.mapTab]
      obtain ⟨hout, hhw, hfl1, hbd1, hlen⟩ := hOk t1 out ha
      rw [ih t1 (hhw.trans hw) (hfl1.trans hfl) (by omega)]
      cases runAdds t1 rest with
      | none => rfl
      | some p => rfl
    | panicked => exact absurd ha hPan

/-- `Writer` on a fresh-enough table is exactly the bookkeeping overwrite. -/
theorem writer_eq_setW (t : GoTable) (b : Nat) (hw : t.hasWriter = false)
    (hfl : t.flushed = false) (hr : t.rows = []) :
    (t.Writer b).1 = setW (max b 1) false t := by
  unfold GoTable.Writer setW
  rw [if_neg (by simp [hw])]
  dsimp only
  rw [hr, hfl]

/-- `Flush` on an undumped writer table produces the bytes `Render` would. -/
theorem flush_setW_render (B : Nat) (tn : GoTable) (hbd : tn.bufRowsDumped = false) :
    ((setW B false tn).Flush).2 = (tn.Render none).2 := by
  show ((setW B false tn).Flush).2 = (renderWith tn (tn.style.getD StyleGrid)).2
  unfold GoTable.Flush
  dsimp only [setW]
  rw [if_neg (by simp [hbd])]
  have h : (renderWith (setW B true tn) (tn.style.getD StyleGrid)).2 =
      (renderWith tn (tn.style.getD StyleGrid)).2 := by
    rw [renderWith_setW]
  exact h

/-- C1: for every table, any buffering threshold at least the number of rows
added, and any row sequence, the Flush-terminated streaming path writes
byte-for-byte what `Render` returns over the same rows with the same style:
every streaming `AddRow` stays in the buffering branch and writes nothing,
the streaming run reaches the buffering run's state (writer bookkeeping
aside), and `Flush` then produces exactly the bytes of `Render`. -/
theorem C1_streaming_flush_eq_render (t : GoTable) (rows : List (List Str)) (b : Nat)
    (hw : t.hasWriter = false) (hfl : t.flushed = false)
    (hbd : t.bufRowsDumped = false) (hr : t.rows = [])
    (hb : rows.length ≤ b) :
    ∃ tn, runAdds t rows = some (tn, []) ∧
      runAdds ((t.Writer b).1) rows = some (setW (max b 1) false tn, []) ∧
      ((setW (max b 1) false tn).Flush).2 = (tn.Render none).2 := by
  obtain ⟨tn, hrun, hnw, hflN, hbdN⟩ := runAdds_nonwriter rows t hw
  refine ⟨tn, hrun, ?_, flush_setW_render _ tn (hbdN.trans hbd)⟩
  rw [writer_eq_setW t b hw hfl hr]
  rw [runAdds_setW (max b 1) rows t hw hfl (by rw [hr]; simp; omega)]
  rw [hrun]
  rfl

/-- Writer-less one-column table used by the C1 witness. -/
def c1Base : GoTable := (New.Header [str "ab"]).1

/-- Witness for C1 at a concrete input. -/
theorem C1_streaming_flush_eq_render_witness :
    c1Base.hasWriter = false ∧ c1Base.flushed = false ∧
    c1Base.bufRowsDumped = false ∧ c1Base.rows = [] ∧
    [[str "cd"]].length ≤ 2 ∧
    ∃ tn, runAdds c1Base [[str "cd"]] = some (tn, []) ∧
      runAdds ((c1Base.Writer 2).1) [[str "cd"]] = some (setW (max 2 1) false tn, []) ∧
      ((setW (max 2 1) false tn).Flush).2 = (tn.Render none).2 :=
  ⟨by decide, by decide, by decide, by decide, by decide,
   C1_streaming_flush_eq_render c1Base [[str "cd"]] 2
     (by decide) (by decide) (by decide) (by decide) (by decide)⟩

end Stable
